import Mathlib

/-!
# go-pfw: a verification development for the forwarding engine

Shallow embedding of `main.go`.  Go strings and byte slices are sequences of
bytes; a byte is a natural number (below 256 for every value that comes from a
real string).  Library functions the program calls (`strings`, `strconv`,
`net`, `fmt`, `bufio`) are embedded after their documented behaviour.
-/

set_option autoImplicit false

namespace GoPfw

/-- Equality of results is decidable when that of values and errors is. -/
instance instDecidableEqExcept {ε α : Type} [DecidableEq ε] [DecidableEq α] :
    DecidableEq (Except ε α)
  | Except.ok a, Except.ok b =>
    if h : a = b then isTrue (by rw [h]) else isFalse (fun e => h (Except.ok.inj e))
  | Except.error a, Except.error b =>
    if h : a = b then isTrue (by rw [h]) else isFalse (fun e => h (Except.error.inj e))
  | Except.ok _, Except.error _ => isFalse (fun e => Except.noConfusion e)
  | Except.error _, Except.ok _ => isFalse (fun e => Except.noConfusion e)

/-! ## Go strings -/

/-- A Go `string` / `[]byte`: a sequence of bytes. -/
abbrev GoString := List Nat

/-- The bytes (UTF-8) of a string literal. -/
def str (s : String) : GoString :=
  s.data.flatMap (fun c => (String.utf8EncodeChar c).map UInt8.toNat)

/-- The six ASCII white-space bytes of `strings.asciiSpace`:
`\t`, `\n`, `\v`, `\f`, `\r` and the blank. -/
def asciiSpace (c : Nat) : Bool :=
  c == 9 || c == 10 || c == 11 || c == 12 || c == 13 || c == 32

/-- When the string starts with a white-space rune (`unicode.IsSpace`), the
rest of the string after that rune.  The non-ASCII white-space runes are
U+0085, U+00A0, U+1680, U+2000..U+200A, U+2028, U+2029, U+202F, U+205F and
U+3000, matched here by their UTF-8 encodings. -/
def dropLeadingSpace : GoString → Option GoString
  | [] => none
  | [c] => if asciiSpace c then some [] else none
  | [c, d] =>
    if asciiSpace c then some [d]
    else if c == 0xC2 && (d == 0x85 || d == 0xA0) then some []
    else none
  | c :: d :: e :: rest =>
    if asciiSpace c then some (d :: e :: rest)
    else if c == 0xC2 && (d == 0x85 || d == 0xA0) then some (e :: rest)
    else if c == 0xE1 && d == 0x9A && e == 0x80 then some rest
    else if c == 0xE2 && d == 0x80 && ((0x80 ≤ e && e ≤ 0x8A) || e == 0xA8 || e == 0xA9 || e == 0xAF)
      then some rest
    else if c == 0xE2 && d == 0x81 && e == 0x9F then some rest
    else if c == 0xE3 && d == 0x80 && e == 0x80 then some rest
    else none

/-- When the reversed string ends (that is, the string itself ends) with a
white-space rune, the reversed string without it. -/
def dropTrailingSpace : GoString → Option GoString
  | [] => none
  | [c] => if asciiSpace c then some [] else none
  | [c, d] =>
    if asciiSpace c then some [d]
    else if d == 0xC2 && (c == 0x85 || c == 0xA0) then some []
    else none
  | c :: d :: e :: rest =>
    if asciiSpace c then some (d :: e :: rest)
    else if d == 0xC2 && (c == 0x85 || c == 0xA0) then some (e :: rest)
    else if e == 0xE1 && d == 0x9A && c == 0x80 then some rest
    else if e == 0xE2 && d == 0x80 && ((0x80 ≤ c && c ≤ 0x8A) || c == 0xA8 || c == 0xA9 || c == 0xAF)
      then some rest
    else if e == 0xE2 && d == 0x81 && c == 0x9F then some rest
    else if e == 0xE3 && d == 0x80 && c == 0x80 then some rest
    else none

/-- Repeated removal of leading white-space runes; `fuel` bounds the number of
runes removed. -/
def trimLeftLoop : Nat → GoString → GoString
  | 0, s => s
  | fuel + 1, s =>
    match dropLeadingSpace s with
    | some rest => trimLeftLoop fuel rest
    | none => s

/-- Repeated removal of trailing white-space runes, on the reversed string. -/
def trimRightLoop : Nat → GoString → GoString
  | 0, s => s
  | fuel + 1, s =>
    match dropTrailingSpace s with
    | some rest => trimRightLoop fuel rest
    | none => s

/-- Embedding of `strings.TrimSpace`: all leading and trailing white space
removed, as defined by Unicode. -/
def TrimSpace (s : GoString) : GoString :=
  let l := trimLeftLoop s.length s
  (trimRightLoop l.length l.reverse).reverse

/-- Embedding of `strings.Split(s, sep)` for a separator of one byte: the
substrings between the occurrences of `sep`; never empty. -/
def Split : GoString → Nat → List GoString
  | [], _ => [[]]
  | c :: rest, sep =>
    if c = sep then [] :: Split rest sep
    else
      match Split rest sep with
      | [] => [[c]]
      | p :: ps => (c :: p) :: ps

/-! ## strconv.Atoi -/

/-- The `Err` field of a `*strconv.NumError`. -/
inductive NumError
  | ErrSyntax
  | ErrRange
deriving DecidableEq, Repr

/-- The digit loop of `strconv.ParseUint(s, 10, 64)`, `n` the value so far.
`cutoff = maxUint64/10 + 1`, `maxVal = 1<<64 - 1`; the sum `n*10 + d` is
computed in `uint64` and an overflow is seen as `n1 < n`. -/
def parseUintLoop : GoString → Nat → Nat × Option NumError
  | [], n => (n, none)
  | c :: rest, n =>
    if 48 ≤ c ∧ c ≤ 57 then
      if n ≥ (2 ^ 64 - 1) / 10 + 1 then (2 ^ 64 - 1, some NumError.ErrRange)
      else
        let n10 := (n * 10) % 2 ^ 64
        let n1 := (n10 + (c - 48)) % 2 ^ 64
        if n1 < n10 ∨ n1 > 2 ^ 64 - 1 then (2 ^ 64 - 1, some NumError.ErrRange)
        else parseUintLoop rest n1
    else (0, some NumError.ErrSyntax)

/-- Embedding of `strconv.ParseUint(s, 10, 64)`. -/
def ParseUint (s : GoString) : Nat × Option NumError :=
  if s = [] then (0, some NumError.ErrSyntax) else parseUintLoop s 0

/-- Embedding of `strconv.ParseInt(s, 10, 0)` on a 64-bit platform: a
leading `+` or `-` is taken off (`neg` is `c = 45`), the rest goes through
`ParseUint`, and the value is checked against `cutoff = 1 << 63`. -/
def ParseInt (s : GoString) : Int × Option NumError :=
  match s with
  | [] => (0, some NumError.ErrSyntax)
  | c :: rest =>
    let body := if c = 43 ∨ c = 45 then rest else s
    match ParseUint body with
    | (_, some NumError.ErrSyntax) => (0, some NumError.ErrSyntax)
    | (un, _) =>
      if c ≠ 45 ∧ un ≥ 2 ^ 63 then ((2 : Int) ^ 63 - 1, some NumError.ErrRange)
      else if c = 45 ∧ un > 2 ^ 63 then (-(2 : Int) ^ 63, some NumError.ErrRange)
      else (if c = 45 then -(un : Int) else (un : Int), none)

/-- The digit loop of the fast path of `strconv.Atoi`: `ch -= '0'`, a syntax
error when `ch > 9` (so for every byte that is not an ASCII digit). -/
def atoiFastLoop : GoString → Nat → Option Nat
  | [], n => some n
  | c :: rest, n => if 48 ≤ c ∧ c ≤ 57 then atoiFastLoop rest (n * 10 + (c - 48)) else none

/-- Embedding of `strconv.Atoi` on a 64-bit platform: the value and the
error (`none` for a `nil` error).  Strings of 1 to 18 bytes take the fast
path, all others go through `ParseInt`. -/
def Atoi (s : GoString) : Int × Option NumError :=
  if 0 < s.length ∧ s.length < 19 then
    match s with
    | [] => (0, some NumError.ErrSyntax)
    | c :: rest =>
      let body := if c = 45 ∨ c = 43 then rest else s
      if body.length < 1 then (0, some NumError.ErrSyntax)
      else
        match atoiFastLoop body 0 with
        | none => (0, some NumError.ErrSyntax)
        | some n => (if c = 45 then -(n : Int) else (n : Int), none)
  else ParseInt s

/-! ## PROXY protocol: decoding -/

/-- The Go struct `ProxyInfo`. -/
structure ProxyInfo where
  SrcIP : GoString
  SrcPort : Int
  DstIP : GoString
  DstPort : Int
deriving DecidableEq, Repr

/-- Embedding of `parseProxyHeader`: the trimmed header is split at every
blank; the errors of `strconv.Atoi` are dropped and its value is kept. -/
def parseProxyHeader (header : GoString) : Except GoString ProxyInfo :=
  let parts := Split (TrimSpace header) 32
  if parts.length < 6 ∨ parts.head? ≠ some (str "PROXY") then
    Except.error (str "invalid proxy header format")
  else
    Except.ok
      { SrcIP := parts.getD 2 []
        SrcPort := (Atoi (parts.getD 4 [])).1
        DstIP := parts.getD 3 []
        DstPort := (Atoi (parts.getD 5 [])).1 }

/-! ## Transport selection -/

/-- Embedding of `strings.ToLower`.  A string of ASCII bytes is lowered byte
by byte; a string with a byte at or above `0x80` goes through
`strings.Map(unicode.ToLower, s)`, whose Unicode case table is not part of the
repository and is the parameter `unicodeLower`. -/
def ToLower (unicodeLower : GoString → GoString) (s : GoString) : GoString :=
  if s.all (fun c => decide (c < 128)) then
    s.map (fun c => if 65 ≤ c ∧ c ≤ 90 then c + 32 else c)
  else unicodeLower s

/-- Embedding of `strings.HasPrefix`. -/
def HasPrefix (s pre : GoString) : Bool := pre.isPrefixOf s

/-- Embedding of `strings.HasSuffix`. -/
def HasSuffix (s suf : GoString) : Bool := suf.isSuffixOf s

/-- Embedding of `strings.Trim(s, cutset)` for a cutset of ASCII bytes: the
leading and trailing bytes that are in the cutset are removed. -/
def Trim (s cutset : GoString) : GoString :=
  ((s.reverse.dropWhile (fun c => decide (c ∈ cutset))).reverse).dropWhile
    (fun c => decide (c ∈ cutset))

/-- An element of a `[]interface{}`: a string, or a value of another type. -/
inductive AnyValue
  | string (s : GoString)
  | other (typeName : GoString)
deriving DecidableEq, Repr

/-- The dynamic value of `NetworkConfig.Type` (an `interface{}`). -/
inductive NetworkTypeValue
  | nil
  | string (v : GoString)
  | strings (v : List GoString)
  | anys (v : List AnyValue)
  | other (typeName : GoString)
deriving DecidableEq, Repr

/-- The loop of `parseNetworkType` over the pieces of a bracketed string:
each piece is trimmed and must be `tcp` or `udp`. -/
def bracketLoop : List GoString → List GoString → Except GoString (List GoString)
  | [], result => Except.ok result
  | n :: rest, result =>
    let n := TrimSpace n
    if n ≠ str "tcp" ∧ n ≠ str "udp" then
      Except.error (str "invalid network type in array: " ++ n)
    else bracketLoop rest (result ++ [n])

/-- The loop of `parseNetworkType` over a `[]string`. -/
def stringsLoop (unicodeLower : GoString → GoString) :
    List GoString → List GoString → Except GoString (List GoString)
  | [], result => Except.ok result
  | n :: rest, result =>
    let n := ToLower unicodeLower (TrimSpace n)
    if n ≠ str "tcp" ∧ n ≠ str "udp" then
      Except.error (str "invalid network type in array: " ++ n)
    else stringsLoop unicodeLower rest (result ++ [n])

/-- The loop of `parseNetworkType` over a `[]interface{}`. -/
def anysLoop (unicodeLower : GoString → GoString) :
    List AnyValue → List GoString → Except GoString (List GoString)
  | [], result => Except.ok result
  | AnyValue.string s :: rest, result =>
    let s := ToLower unicodeLower (TrimSpace s)
    if s ≠ str "tcp" ∧ s ≠ str "udp" then
      Except.error (str "invalid network type in array: " ++ s)
    else anysLoop unicodeLower rest (result ++ [s])
  | AnyValue.other _ :: _, _ => Except.error (str "array contains non-string element")

/-- Embedding of `parseNetworkType`. -/
def parseNetworkType (unicodeLower : GoString → GoString) :
    NetworkTypeValue → Except GoString (List GoString)
  | NetworkTypeValue.nil => Except.ok [str "tcp"]
  | NetworkTypeValue.string v =>
    if v = [] then Except.ok [str "tcp"]
    else
      let v := ToLower unicodeLower v
      if v = str "both" then Except.ok [str "tcp", str "udp"]
      else if v = str "tcp" ∨ v = str "udp" then Except.ok [v]
      else if HasPrefix v (str "[") && HasSuffix v (str "]") then
        bracketLoop (Split (Trim v (str "[]")) 44) []
      else Except.error (str "invalid network type: " ++ v)
  | NetworkTypeValue.strings v =>
    if v.length = 0 then Except.ok [str "tcp"]
    else stringsLoop unicodeLower v []
  | NetworkTypeValue.anys v =>
    if v.length = 0 then Except.ok [str "tcp"]
    else anysLoop unicodeLower v []
  | NetworkTypeValue.other typeName =>
    Except.error (str "unsupported network type: " ++ typeName)

/-! ## net.IP -/

/-- A Go `net.IP`: a byte slice, `[]` for `nil`. -/
abbrev IP := List Nat

/-- Embedding of `IP.To4`: the 4-byte form of an IPv4 address, `none` for
`nil`. -/
def To4 (ip : IP) : Option IP :=
  if ip.length = 4 then some ip
  else if ip.length = 16 ∧ (ip.take 10).all (fun b => b == 0) ∧
      ip.getD 10 0 = 0xff ∧ ip.getD 11 0 = 0xff then some (ip.drop 12)
  else none

/-- The decimal digits of `n` in front of `acc`; at most `fuel + 1` digits. -/
def decimalLoop : Nat → Nat → GoString → GoString
  | 0, n, acc => (48 + n % 10) :: acc
  | fuel + 1, n, acc =>
    if n < 10 then (48 + n) :: acc else decimalLoop fuel (n / 10) ((48 + n % 10) :: acc)

/-- Decimal text of a natural number, as `fmt` and `netip` print it. -/
def formatNat (n : Nat) : GoString := decimalLoop n n []

/-- Decimal text of an integer, the verb `%d` of `fmt`. -/
def formatInt (i : Int) : GoString :=
  if i < 0 then 45 :: formatNat i.natAbs else formatNat i.natAbs

/-- One lower-case hexadecimal digit. -/
def hexDigit (d : Nat) : Nat := if d < 10 then 48 + d else 87 + d

/-- Embedding of `netip.appendHex`: a 16-bit group in lower-case hexadecimal
without leading zeros. -/
def appendHex (x : Nat) : GoString :=
  (if x ≥ 0x1000 then [hexDigit (x / 0x1000 % 16)] else []) ++
  (if x ≥ 0x100 then [hexDigit (x / 0x100 % 16)] else []) ++
  (if x ≥ 0x10 then [hexDigit (x / 0x10 % 16)] else []) ++
  [hexDigit (x % 16)]

/-- Embedding of `net.hexString`: two hexadecimal digits for each byte. -/
def hexString (b : List Nat) : GoString :=
  b.flatMap (fun x => [hexDigit (x / 16 % 16), hexDigit (x % 16)])

/-- The 16-bit groups of a 16-byte address. -/
def v6groups : List Nat → List Nat
  | hi :: lo :: rest => (hi * 256 + lo) :: v6groups rest
  | _ => []

/-- The end `j` of the run of zero groups that starts at `i`. -/
def zeroRunEnd (g : List Nat) : Nat → Nat → Nat
  | 0, j => j
  | fuel + 1, j => if j < 8 ∧ g.getD j 1 = 0 then zeroRunEnd g fuel (j + 1) else j

/-- The first loop of `netip.Addr.appendTo6`: the first longest run of at
least two zero groups, as `(zeroStart, zeroEnd)`; `(255, 255)` when there is
none. -/
def zeroRunLoop (g : List Nat) : Nat → Nat → Nat × Nat → Nat × Nat
  | 0, _, z => z
  | fuel + 1, i, z =>
    let j := zeroRunEnd g 8 i
    let l := j - i
    zeroRunLoop g fuel (i + 1) (if l ≥ 2 ∧ l > z.2 - z.1 then (i, j) else z)

/-- The second loop of `netip.Addr.appendTo6`: the groups in hexadecimal,
the run of zeros printed as `::`. -/
def appendGroups (g : List Nat) (zeroStart zeroEnd : Nat) : Nat → Nat → GoString
  | 0, _ => []
  | fuel + 1, i =>
    if i ≥ 8 then []
    else if i = zeroStart then
      if zeroEnd ≥ 8 then [58, 58]
      else [58, 58] ++ appendHex (g.getD zeroEnd 0) ++ appendGroups g zeroStart zeroEnd fuel (zeroEnd + 1)
    else
      (if i > 0 then [58] else []) ++ appendHex (g.getD i 0) ++
        appendGroups g zeroStart zeroEnd fuel (i + 1)

/-- Text of a 16-byte address that is not an IPv4 address
(`netip.Addr.string6`). -/
def string6 (ip : IP) : GoString :=
  let g := v6groups ip
  let z := zeroRunLoop g 8 0 (255, 255)
  appendGroups g z.1 z.2 8 0

/-- Text of a 4-byte address (`netip.Addr.string4`). -/
def string4 (p4 : IP) : GoString :=
  formatNat (p4.getD 0 0) ++ [46] ++ formatNat (p4.getD 1 0) ++ [46] ++
    formatNat (p4.getD 2 0) ++ [46] ++ formatNat (p4.getD 3 0)

/-- Embedding of `IP.String`. -/
def IPString (ip : IP) : GoString :=
  if ip.length = 0 then str "<nil>"
  else if ip.length ≠ 4 ∧ ip.length ≠ 16 then str "?" ++ hexString ip
  else
    match To4 ip with
    | some p4 => string4 p4
    | none => string6 ip

/-! ## net.ParseIP -/

/-- The loop of `netip.parseIPv4Fields`: `first` says that the index is 0,
`prev` is the byte before, `fields` the octets stored so far. -/
def parseIPv4Loop : GoString → Bool → Nat → Nat → Nat → Nat → List Nat → Option (List Nat)
  | [], _, _, val, pos, _, fields => if pos < 3 then none else some (fields ++ [val])
  | c :: rest, first, prev, val, pos, digLen, fields =>
    if 48 ≤ c ∧ c ≤ 57 then
      if digLen = 1 ∧ val = 0 then none
      else
        let val1 := val * 10 + (c - 48)
        if val1 > 255 then none
        else parseIPv4Loop rest false c val1 pos (digLen + 1) fields
    else if c = 46 then
      if first ∨ rest = [] ∨ prev = 46 then none
      else if pos = 3 then none
      else parseIPv4Loop rest false c 0 (pos + 1) 0 (fields ++ [val])
    else none

/-- Embedding of `netip.parseIPv4Fields`: the four octets of a
dotted-decimal address. -/
def parseIPv4Fields (s : GoString) : Option (List Nat) :=
  parseIPv4Loop s true 0 0 0 0 []

/-- Value of a hexadecimal digit. -/
def hexValue (c : Nat) : Option Nat :=
  if 48 ≤ c ∧ c ≤ 57 then some (c - 48)
  else if 97 ≤ c ∧ c ≤ 102 then some (c - 87)
  else if 65 ≤ c ∧ c ≤ 70 then some (c - 55)
  else none

/-- The hexadecimal loop of `netip.parseIPv6`: the number of digits read, the
value and the rest of the string; `none` for a group of more than 4
digits. -/
def hexGroupLoop : GoString → Nat → Nat → Option (Nat × Nat × GoString)
  | [], off, acc => some (off, acc, [])
  | c :: rest, off, acc =>
    match hexValue c with
    | none => some (off, acc, c :: rest)
    | some d =>
      if off > 3 then none
      else if acc * 16 + d > 0xFFFF then none
      else hexGroupLoop rest (off + 1) (acc * 16 + d)

/-- The main loop of `netip.parseIPv6`: `ip` holds the bytes stored so far
(its length is the index `i`), `ellipsis` the position of `::`.  The result is
the state when the loop is left. -/
def parseIPv6Loop : Nat → GoString → List Nat → Option Nat →
    Option (GoString × List Nat × Option Nat)
  | 0, s, ip, ellipsis => some (s, ip, ellipsis)
  | fuel + 1, s, ip, ellipsis =>
    if ip.length ≥ 16 then some (s, ip, ellipsis)
    else
      match hexGroupLoop s 0 0 with
      | none => none
      | some (off, acc, rest) =>
        if off = 0 then none
        else if rest.head? = some 46 then
          if ellipsis = none ∧ ip.length ≠ 12 then none
          else if ip.length + 4 > 16 then none
          else
            match parseIPv4Fields s with
            | none => none
            | some f => some ([], ip ++ f, ellipsis)
        else
          let ip1 := ip ++ [acc / 256, acc % 256]
          match rest with
          | [] => some ([], ip1, ellipsis)
          | c :: rest1 =>
            if c ≠ 58 then none
            else
              match rest1 with
              | [] => none
              | d :: rest2 =>
                if d = 58 then
                  if ellipsis.isSome then none
                  else
                    match rest2 with
                    | [] => some ([], ip1, some ip1.length)
                    | _ :: _ => parseIPv6Loop fuel rest2 ip1 (some ip1.length)
                else parseIPv6Loop fuel rest1 ip1 ellipsis

/-- Embedding of `netip.parseIPv6` as `net.ParseIP` uses it: an address with
a zone (`%`) is refused. -/
def parseIPv6 (s : GoString) : Option (List Nat) :=
  if 37 ∈ s then none
  else
    let lead : Bool := s.take 2 == [58, 58]
    let s1 := if lead then s.drop 2 else s
    if lead ∧ s1 = [] then some (List.replicate 16 0)
    else
      match parseIPv6Loop 9 s1 [] (if lead then some 0 else none) with
      | none => none
      | some (rest, ip, ellipsis) =>
        if rest ≠ [] then none
        else if ip.length < 16 then
          match ellipsis with
          | none => none
          | some e => some (ip.take e ++ List.replicate (16 - ip.length) 0 ++ ip.drop e)
        else if ellipsis.isSome then none
        else some ip

/-- The dispatch of `netip.ParseAddr` on the first `.`, `:` or `%`, and the
16-byte form of the result. -/
def parseAddr16 (s : GoString) : GoString → Option (List Nat)
  | [] => none
  | c :: rest =>
    if c = 46 then
      (parseIPv4Fields s).map (fun f => List.replicate 10 0 ++ [0xff, 0xff] ++ f)
    else if c = 58 then parseIPv6 s
    else if c = 37 then none
    else parseAddr16 s rest

/-- Embedding of `net.ParseIP`: the 16-byte address, `[]` (`nil`) when the
text is not an IP address. -/
def ParseIP (s : GoString) : IP := (parseAddr16 s s).getD []

/-! ## PROXY protocol: encoding -/

/-- A Go `net.TCPAddr` (the zone is not printed and is left out). -/
structure TCPAddr where
  IP : IP
  Port : Int
deriving DecidableEq, Repr

/-- An argument of `fmt.Sprintf`. -/
inductive FmtArg
  | string (s : GoString)
  | ip (ip : IP)
  | int (i : Int)
deriving DecidableEq, Repr

/-- One verb of `fmt` applied to one argument: `%s` on a string and on a
`net.IP` (a `Stringer`), `%d` on an `int`; `none` for what is not
embedded. -/
def formatVerb (verb : Nat) (a : FmtArg) : Option GoString :=
  match a with
  | FmtArg.string s => if verb = 115 then some s else none
  | FmtArg.ip ip => if verb = 115 then some (IPString ip) else none
  | FmtArg.int i => if verb = 100 then some (formatInt i) else none

/-- Embedding of `fmt.Sprintf` for formats made of plain bytes and the verbs
of `formatVerb`. -/
def Sprintf : GoString → List FmtArg → Option GoString
  | [], [] => some []
  | [], _ :: _ => none
  | [_], _ :: _ => none
  | [c], [] => if c = 37 then none else some [c]
  | c :: v :: rest, args =>
    if c = 37 then
      match args with
      | [] => none
      | a :: as =>
        match formatVerb v a, Sprintf rest as with
        | some out, some tail => some (out ++ tail)
        | _, _ => none
    else (Sprintf (v :: rest) args).map (fun tail => c :: tail)

/-- Embedding of `buildProxyHeader` for two `*net.TCPAddr`. -/
def buildProxyHeader (src dst : TCPAddr) : Option GoString :=
  let proto := if To4 src.IP = none then str "TCP6" else str "TCP4"
  Sprintf (str "PROXY %s %s %s %d %d\r\n")
    [FmtArg.string proto, FmtArg.ip src.IP, FmtArg.ip dst.IP,
     FmtArg.int src.Port, FmtArg.int dst.Port]

/-- The header `handleTCPConnection` sends for a decoded inbound header: the
two `net.TCPAddr` are made with `net.ParseIP` from the decoded texts. -/
def rebuildProxyHeader (info : ProxyInfo) : Option GoString :=
  buildProxyHeader { IP := ParseIP info.SrcIP, Port := info.SrcPort }
    { IP := ParseIP info.DstIP, Port := info.DstPort }

/-! ## Services -/

/-- The Go struct `NetworkConfig` (its field `Type` is `NetworkType` here);
a `*bool` is `none` for `nil`. -/
structure NetworkConfig where
  NetworkType : NetworkTypeValue
  SendProxy : Option Bool
  AcceptProxy : Option Bool
deriving DecidableEq, Repr

/-- The Go struct `Service`. -/
structure Service where
  Name : GoString
  Listen : GoString
  Remote : GoString
  Network : NetworkConfig
deriving DecidableEq, Repr

/-! ## TCP: the inbound direction of one connection -/

/-- The inbound side of an accepted connection: the segments the kernel will
hand over, in order, each to one or more `Read` calls; after the last one the
peer has closed and `Read` returns `io.EOF`. -/
abbrev Socket := List (List Nat)

/-- One `Read` into a buffer of `max` free bytes: the bytes read (`none` for
`io.EOF`) and the socket afterwards.  A segment longer than the buffer is
read in part and the rest stays for the next `Read`. -/
def sockRead (max : Nat) : Socket → Option (List Nat) × Socket
  | [] => (none, [])
  | seg :: rest =>
    if seg = [] then sockRead max rest
    else if seg.length ≤ max then (some seg, rest)
    else (some (seg.take max), seg.drop max :: rest)

/-- A `bufio.Reader` with the default buffer of 4096 bytes: the reader below
it, the bytes buffered and not yet read (`buf[r:w]`), and whether a read error
(here `io.EOF`) is pending. -/
structure Reader where
  rd : Socket
  buf : List Nat
  err : Bool
deriving DecidableEq, Repr

/-- Embedding of `bufio.NewReader`. -/
def NewReader (rd : Socket) : Reader := { rd := rd, buf := [], err := false }

/-- Embedding of `(*bufio.Reader).fill`: one `Read` of the reader below into
the free part of the buffer. -/
def Reader.fill (b : Reader) : Reader :=
  match sockRead (4096 - b.buf.length) b.rd with
  | (none, rd) => { b with rd := rd, err := true }
  | (some data, rd) => { b with rd := rd, buf := b.buf ++ data }

/-- The loops of `ReadSlice` and `collectFragments` behind
`(*bufio.Reader).ReadString`: `acc` holds the full buffers collected so far.
The result is the string, whether an error is returned, and the reader
afterwards; `none` when the fuel runs out. -/
def readStringLoop (delim : Nat) : Nat → Reader → List Nat → Option (List Nat × Bool × Reader)
  | 0, _, _ => none
  | fuel + 1, b, acc =>
    let i := b.buf.indexOf delim
    if i < b.buf.length then
      some (acc ++ b.buf.take (i + 1), false, { b with buf := b.buf.drop (i + 1) })
    else if b.err then some (acc ++ b.buf, true, { b with buf := [] })
    else if b.buf.length ≥ 4096 then readStringLoop delim fuel { b with buf := [] } (acc ++ b.buf)
    else readStringLoop delim fuel b.fill acc

/-- Embedding of `(*bufio.Reader).ReadString`. -/
def Reader.ReadString (b : Reader) (delim : Nat) : Option (List Nat × Bool × Reader) :=
  readStringLoop delim (2 * (b.rd.flatten.length + b.rd.length) + 3) b []

/-- Embedding of `handleTCPConnection`, the direction from the client to the
remote: the bytes written to the remote connection, `none` when the
connection is given up before the relay starts.  `inbound` is what the client
sends, `srcRemote` and `srcLocal` are `src.RemoteAddr()` and
`src.LocalAddr()`, `dialOk` says whether `net.Dial` succeeds.  Writes to the
remote succeed and the relay runs until the client closes.

With `AcceptProxy` the header is read through a `bufio.Reader`; the relay
then copies from `io.MultiReader(bytes.NewReader([]byte{}), src)`, that is
from the connection itself, so what the `bufio.Reader` still holds is not
copied. -/
def handleTCPConnection (svc : Service) (inbound : Socket) (srcRemote srcLocal : TCPAddr)
    (dialOk : Bool) : Option GoString :=
  let accepted : Option (Option ProxyInfo × Socket) :=
    if svc.Network.AcceptProxy = some true then
      match (NewReader inbound).ReadString 10 with
      | none => none
      | some (header, err, reader) =>
        if err then none
        else
          match parseProxyHeader header with
          | Except.error _ => none
          | Except.ok info => some (some info, reader.rd)
    else some (none, inbound)
  match accepted with
  | none => none
  | some (proxyInfo, src) =>
    if !dialOk then none
    else
      let header : Option GoString :=
        if svc.Network.SendProxy = some true then
          match proxyInfo with
          | some info => rebuildProxyHeader info
          | none => buildProxyHeader srcRemote srcLocal
        else some []
      header.map (fun h => h ++ src.flatten)

/-! ## Starting a service -/

/-- What `startService` does that can be seen from outside: an error line, or
a forwarder goroutine started on the resolved addresses. -/
inductive ServiceEvent
  | logError (msg : GoString)
  | startTCPForwarder (listen remote : GoString)
  | startUDPForwarder (listen remote : GoString)
deriving DecidableEq, Repr

/-- The loop of `startService` over the transports. -/
def startLoop (svc : Service) (listen remote : GoString) : List GoString → List ServiceEvent
  | [] => []
  | netType :: rest =>
    if netType = str "udp" ∧
        (svc.Network.SendProxy = some true ∨ svc.Network.AcceptProxy = some true) then
      ServiceEvent.logError (str "Proxy Protocol not supported for UDP") ::
        startLoop svc listen remote rest
    else if netType = str "tcp" then
      ServiceEvent.startTCPForwarder listen remote :: startLoop svc listen remote rest
    else if netType = str "udp" then
      ServiceEvent.startUDPForwarder listen remote :: startLoop svc listen remote rest
    else startLoop svc listen remote rest

/-- Embedding of `startService`.  `parseAddress` (interface and DNS lookups)
is a parameter: the address it resolves to, or its error text. -/
def startService (parseAddress : GoString → Bool → Except GoString GoString)
    (unicodeLower : GoString → GoString) (svc : Service) : List ServiceEvent :=
  match parseAddress svc.Listen true with
  | Except.error e => [ServiceEvent.logError (str "Invalid listen address: " ++ e)]
  | Except.ok listen =>
    match parseAddress svc.Remote false with
    | Except.error e => [ServiceEvent.logError (str "Invalid remote address: " ++ e)]
    | Except.ok remote =>
      match parseNetworkType unicodeLower svc.Network.NetworkType with
      | Except.error e => [ServiceEvent.logError (str "Invalid network: " ++ e)]
      | Except.ok networkTypes => startLoop svc listen remote networkTypes

/-! ## UDP: the admission gate of one forwarder -/

/-- Where the read loop of `startUDPForwarder` stands: at `ReadFromUDP`, at
the send `sem <- struct{}{}`, or at the `go` statement. -/
inductive LoopPc
  | read
  | acquire
  | dispatch
deriving DecidableEq, Repr

/-- Where one per-datagram goroutine stands: in `forwardUDP`, at
`WriteToUDP`, or at the deferred receive `<-sem`. -/
inductive WorkerPc
  | forward
  | reply
  | release
deriving DecidableEq, Repr

/-- The state of one UDP forwarder: the read loop, the number of elements in
the channel `sem`, and the goroutines started and not yet finished. -/
structure UDPState where
  loop : LoopPc
  sem : Nat
  workers : List WorkerPc
deriving DecidableEq, Repr

/-- The capacity of `sem`: `make(chan struct{}, 1000)`. -/
def semCapacity : Nat := 1000

/-- One atomic step of the forwarder; a number names a goroutine by its
position among the running ones. -/
inductive UDPEvent
  | readError
  | readDatagram
  | acquireSlot
  | startWorker
  | forwardError (i : Nat)
  | forwardDone (i : Nat)
  | replyError (i : Nat)
  | replyDone (i : Nat)
  | releaseSlot (i : Nat)
deriving DecidableEq, Repr

/-- The state after `make(chan struct{}, 1000)`, before the first read. -/
def udpInit : UDPState := { loop := LoopPc.read, sem := 0, workers := [] }

/-- The step of `startUDPForwarder` and its goroutines; `none` when the step
is not enabled (a send on a full channel and a receive on an empty one
block). -/
def udpStep (s : UDPState) : UDPEvent → Option UDPState
  | UDPEvent.readError =>
    if s.loop = LoopPc.read then some s else none
  | UDPEvent.readDatagram =>
    if s.loop = LoopPc.read then some { s with loop := LoopPc.acquire } else none
  | UDPEvent.acquireSlot =>
    if s.loop = LoopPc.acquire ∧ s.sem < semCapacity then
      some { s with loop := LoopPc.dispatch, sem := s.sem + 1 }
    else none
  | UDPEvent.startWorker =>
    if s.loop = LoopPc.dispatch then
      some { s with loop := LoopPc.read, workers := WorkerPc.forward :: s.workers }
    else none
  | UDPEvent.forwardError i =>
    if s.workers[i]? = some WorkerPc.forward then
      some { s with workers := s.workers.set i WorkerPc.release }
    else none
  | UDPEvent.forwardDone i =>
    if s.workers[i]? = some WorkerPc.forward then
      some { s with workers := s.workers.set i WorkerPc.reply }
    else none
  | UDPEvent.replyError i =>
    if s.workers[i]? = some WorkerPc.reply then
      some { s with workers := s.workers.set i WorkerPc.release }
    else none
  | UDPEvent.replyDone i =>
    if s.workers[i]? = some WorkerPc.reply then
      some { s with workers := s.workers.set i WorkerPc.release }
    else none
  | UDPEvent.releaseSlot i =>
    if s.workers[i]? = some WorkerPc.release ∧ 0 < s.sem then
      some { s with sem := s.sem - 1, workers := s.workers.eraseIdx i }
    else none

/-- A run of the forwarder from a state: the state reached, `none` when some
step is not enabled. -/
def udpRun : UDPState → List UDPEvent → Option UDPState
  | s, [] => some s
  | s, e :: es =>
    match udpStep s e with
    | none => none
    | some t => udpRun t es

/-- The per-datagram forward operations in flight: the goroutines started
and not yet finished. -/
def inFlight (s : UDPState) : Nat := s.workers.length

/-- The invariant of the admission gate: the channel holds one element for
each goroutine in flight, and one more while the loop stands between the send
and the `go` statement; it never holds more than its capacity. -/
def GateInv (s : UDPState) : Prop :=
  s.sem = s.workers.length + (if s.loop = LoopPc.dispatch then 1 else 0) ∧ s.sem ≤ semCapacity

/-! ## Reference definitions for the theorems -/

/-- An element of a transport sequence as `parseNetworkType` normalises it:
trimmed, then lower-cased. -/
def normalise (unicodeLower : GoString → GoString) (n : GoString) : GoString :=
  ToLower unicodeLower (TrimSpace n)

/-- The two transports. -/
def isTransport (n : GoString) : Prop := n = str "tcp" ∨ n = str "udp"

/-- Being a transport is decidable. -/
instance instDecidableIsTransport (n : GoString) : Decidable (isTransport n) :=
  inferInstanceAs (Decidable (n = str "tcp" ∨ n = str "udp"))

/-- Whether an event is the start of a TCP forwarder. -/
def isTCPStart : ServiceEvent → Bool
  | ServiceEvent.startTCPForwarder _ _ => true
  | _ => false

/-- Whether an event is the start of a UDP forwarder. -/
def isUDPStart : ServiceEvent → Bool
  | ServiceEvent.startUDPForwarder _ _ => true
  | _ => false

/-- Reference for the selection on an absent value or a single string, after
the words of the specification with the bracketed form read element by
element: absent or empty gives `tcp`; otherwise the lower-cased string `both`
gives `tcp, udp`, `tcp` and `udp` give that one, a string between `[` and `]`
is cut at the commas and every trimmed piece must be `tcp` or `udp` (the
first that is not is named in the error), and every other string is an
invalid transport. -/
def selectReference (unicodeLower : GoString → GoString) :
    Option GoString → Except GoString (List GoString)
  | none => Except.ok [str "tcp"]
  | some s =>
    if s = [] then Except.ok [str "tcp"]
    else
      let v := ToLower unicodeLower s
      if v = str "both" then Except.ok [str "tcp", str "udp"]
      else if v = str "tcp" then Except.ok [str "tcp"]
      else if v = str "udp" then Except.ok [str "udp"]
      else if v.head? = some 91 ∧ v.getLast? = some 93 then
        let pieces := (Split (Trim v (str "[]")) 44).map TrimSpace
        match pieces.find? (fun e => decide (e ≠ str "tcp" ∧ e ≠ str "udp")) with
        | none => Except.ok pieces
        | some bad => Except.error (str "invalid network type in array: " ++ bad)
      else Except.error (str "invalid network type: " ++ v)

/-- An ASCII decimal digit. -/
def isDigit (c : Nat) : Bool := decide (48 ≤ c ∧ c ≤ 57)

/-- The value of a run of decimal digits read after the value `n`. -/
def digitsValue (n : Nat) (s : GoString) : Nat := s.foldl (fun m c => m * 10 + (c - 48)) n

/-- The value of a run of decimal digits. -/
def decimalValue (s : GoString) : Nat := digitsValue 0 s

/-- A decimal numeral: an optional sign `+` or `-`, then one digit or
more. -/
def isNumeral : GoString → Bool
  | [] => false
  | c :: rest =>
    if c = 43 ∨ c = 45 then !rest.isEmpty && rest.all isDigit else (c :: rest).all isDigit

/-- The integer a decimal numeral stands for. -/
def numeralValue : GoString → Int
  | [] => 0
  | c :: rest =>
    if c = 45 then -(decimalValue rest : Int)
    else if c = 43 then (decimalValue rest : Int)
    else (decimalValue (c :: rest) : Int)

/-- The port `parseProxyHeader` keeps for a port field: the value
`strconv.Atoi` returns, which is the integer the field stands for when the
field is a decimal numeral in the range of a 64-bit `int`, and 0 when `Atoi`
reports a syntax error, as it does for every field of at most 19 bytes that is
no decimal numeral. -/
def PortOf (field : GoString) (port : Int) : Prop :=
  port = (Atoi field).1 ∧
  (isNumeral field = true → -(2 : Int) ^ 63 ≤ numeralValue field →
    numeralValue field < (2 : Int) ^ 63 → port = numeralValue field) ∧
  (isNumeral field = false → field.length ≤ 19 → port = 0) ∧
  ((Atoi field).2 = some NumError.ErrSyntax → port = 0)

/-- The digits of one octet as the loop of `parseIPv4Fields` reads them,
from the value `val` and `digLen` digits: the value and the number of digits
at the end, `none` for a leading zero or a value above 255. -/
def octetScan : GoString → Nat → Nat → Option (Nat × Nat)
  | [], val, digLen => some (val, digLen)
  | c :: rest, val, digLen =>
    if digLen = 1 ∧ val = 0 then none
    else if val * 10 + (c - 48) > 255 then none
    else octetScan rest (val * 10 + (c - 48)) (digLen + 1)

/-- Decoding a header and encoding the result again, as `handleTCPConnection`
does with `AcceptProxy` and `SendProxy` both set; `none` when the header is
refused. -/
def roundTrip (header : GoString) : Option GoString :=
  match parseProxyHeader header with
  | Except.ok info => rebuildProxyHeader info
  | Except.error _ => none

/-- A port field that the round trip keeps or replaces in a known way: the
decimal text of an integer in the range of a 64-bit `int`, or a field of at
most 19 bytes that is no decimal numeral. -/
def PortField (f : GoString) : Prop :=
  (∃ i : Int, -(2 : Int) ^ 63 ≤ i ∧ i < (2 : Int) ^ 63 ∧ f = formatInt i) ∨
    (isNumeral f = false ∧ f.length ≤ 19)

/-- What the round trip writes for such a port field: the field itself when
it is a decimal numeral, and `0` when it is not. -/
def reencodedPort (f : GoString) : GoString := if isNumeral f = true then f else str "0"

/-- The groups of an IPv6 text between colons: each group in hexadecimal,
a colon between two groups. -/
def joinGroups : List Nat → GoString
  | [] => []
  | [x] => appendHex x
  | x :: y :: rest => appendHex x ++ 58 :: joinGroups (y :: rest)

/-- The bytes of a list of 16-bit groups. -/
def groupBytes (gs : List Nat) : List Nat := gs.flatMap (fun x => [x / 256, x % 256])

/-- A byte of an IPv6 text: a colon or a hexadecimal digit. -/
def isV6Char (c : Nat) : Bool := c == 58 || (hexValue c).isSome

/-- An address as the program holds it: 4 or 16 bytes. -/
def validIP (ip : IP) : Prop := (ip.length = 4 ∨ ip.length = 16) ∧ ∀ b ∈ ip, b < 256

/-- Being such an address is decidable. -/
instance instDecidableValidIP (ip : IP) : Decidable (validIP ip) :=
  inferInstanceAs (Decidable ((ip.length = 4 ∨ ip.length = 16) ∧ ∀ b ∈ ip, b < 256))

/-! # Theorems -/

/-! ## C1: the payload that arrives with the header -/

/-- C1 (the code departs from it): with `AcceptProxy` set, a client whose
header line and payload `ping` arrive in one segment has nothing forwarded to
the remote, although `ping` follows the first line; when the same bytes
arrive as two segments, split right after the line, `ping` is forwarded. -/
theorem handleTCPConnection_drops_buffered_payload :
    handleTCPConnection
        { Name := [], Listen := [], Remote := [],
          Network := { NetworkType := NetworkTypeValue.nil, SendProxy := none,
                       AcceptProxy := some true } }
        [str "PROXY TCP4 10.0.0.1 10.0.0.2 1234 80\r\nping"]
        { IP := [10, 0, 0, 1], Port := 1234 } { IP := [10, 0, 0, 2], Port := 80 } true
      = some [] ∧
    handleTCPConnection
        { Name := [], Listen := [], Remote := [],
          Network := { NetworkType := NetworkTypeValue.nil, SendProxy := none,
                       AcceptProxy := some true } }
        [str "PROXY TCP4 10.0.0.1 10.0.0.2 1234 80\r\n", str "ping"]
        { IP := [10, 0, 0, 1], Port := 1234 } { IP := [10, 0, 0, 2], Port := 80 } true
      = some (str "ping") := by
  constructor <;> decide

/-! ## C3: the bytes of the header -/

/-- The text `Sprintf` builds in `buildProxyHeader`. -/
theorem buildProxyHeader_eq (src dst : TCPAddr) :
    buildProxyHeader src dst =
        some (str "PROXY " ++ (if To4 src.IP = none then str "TCP6" else str "TCP4") ++
          str " " ++ IPString src.IP ++ str " " ++ IPString dst.IP ++ str " " ++
          formatInt src.Port ++ str " " ++ formatInt dst.Port ++ str "\r\n") := by
  by_cases h : To4 src.IP = none
  · simp only [buildProxyHeader, h, if_true, List.append_assoc]
    rfl
  · simp only [buildProxyHeader, h, if_false, List.append_assoc]
    rfl

/-- C3: for every two TCP endpoints `buildProxyHeader` returns the bytes
`PROXY <fam> <srcIP> <dstIP> <srcPort> <dstPort>\r\n`, the family being `TCP6`
exactly when the source IP has no 4-byte form and `TCP4` otherwise; for the
source `127.0.0.1:clientPort` and the destination `127.0.0.1:9000`, in the
4-byte and in the 16-byte form of the address, this is
`PROXY TCP4 127.0.0.1 127.0.0.1 <clientPort> 9000\r\n`. -/
theorem buildProxyHeader_bytes (src dst : TCPAddr) :
    buildProxyHeader src dst =
        some (str "PROXY " ++ (if To4 src.IP = none then str "TCP6" else str "TCP4") ++
          str " " ++ IPString src.IP ++ str " " ++ IPString dst.IP ++ str " " ++
          formatInt src.Port ++ str " " ++ formatInt dst.Port ++ str "\r\n") ∧
    (∀ clientPort : Int,
      buildProxyHeader { IP := [127, 0, 0, 1], Port := clientPort }
          { IP := [127, 0, 0, 1], Port := 9000 } =
        some (str "PROXY TCP4 127.0.0.1 127.0.0.1 " ++ formatInt clientPort ++
          str " 9000\r\n")) ∧
    (∀ clientPort : Int,
      buildProxyHeader
          { IP := [0, 0, 0, 0, 0, 0, 0, 0, 0, 0, 255, 255, 127, 0, 0, 1], Port := clientPort }
          { IP := [0, 0, 0, 0, 0, 0, 0, 0, 0, 0, 255, 255, 127, 0, 0, 1], Port := 9000 } =
        some (str "PROXY TCP4 127.0.0.1 127.0.0.1 " ++ formatInt clientPort ++
          str " 9000\r\n")) := by
  have h4 : To4 [127, 0, 0, 1] = some [127, 0, 0, 1] := by decide
  have h16 : To4 [0, 0, 0, 0, 0, 0, 0, 0, 0, 0, 255, 255, 127, 0, 0, 1] = some [127, 0, 0, 1] := by
    decide
  have s4 : IPString [127, 0, 0, 1] = str "127.0.0.1" := by decide
  have s16 : IPString [0, 0, 0, 0, 0, 0, 0, 0, 0, 0, 255, 255, 127, 0, 0, 1] = str "127.0.0.1" := by
    decide
  have p : formatInt 9000 = str "9000" := by decide
  refine ⟨buildProxyHeader_eq src dst, ?_, ?_⟩
  · intro clientPort
    rw [buildProxyHeader_eq]
    simp only [h4, s4, p, List.append_assoc, reduceCtorEq, if_false]
    rfl
  · intro clientPort
    rw [buildProxyHeader_eq]
    simp only [h16, s16, p, List.append_assoc, reduceCtorEq, if_false]
    rfl

/-! ## C5: headers that are refused -/

/-- C5 (as stated it fails): the line ` PROXY  TCP4 10.0.0.1 10.0.0.2 1234`
starts with a blank, so its first blank-separated piece is empty and not
`PROXY`, and it has only five non-empty pieces; `parseProxyHeader` trims it,
splits it at every single blank into six pieces and returns a `ProxyInfo`. -/
theorem parseProxyHeader_accepts_after_trim :
    (Split (str " PROXY  TCP4 10.0.0.1 10.0.0.2 1234") 32).head? ≠ some (str "PROXY") ∧
    ((Split (str " PROXY  TCP4 10.0.0.1 10.0.0.2 1234") 32).filter (fun t => t ≠ [])).length = 5 ∧
    parseProxyHeader (str " PROXY  TCP4 10.0.0.1 10.0.0.2 1234") =
      Except.ok { SrcIP := str "TCP4", SrcPort := 0, DstIP := str "10.0.0.1", DstPort := 1234 } := by
  refine ⟨?_, ?_, ?_⟩ <;> decide

/-- C5 (amended): a header whose trimmed text splits at single blanks into
fewer than 6 pieces, or whose first such piece is not `PROXY`, is refused with
the error `invalid proxy header format`. -/
theorem parseProxyHeader_rejects (header : GoString)
    (h : (Split (TrimSpace header) 32).length < 6 ∨
      (Split (TrimSpace header) 32).head? ≠ some (str "PROXY")) :
    parseProxyHeader header = Except.error (str "invalid proxy header format") := by
  unfold parseProxyHeader
  simp only [h, if_true]

/-- C5, at concrete headers: a header of five pieces and a header that does
not start with `PROXY` are refused. -/
theorem parseProxyHeader_rejects_witness :
    parseProxyHeader (str "PROXY TCP4 10.0.0.1 10.0.0.2 1234\r\n") =
        Except.error (str "invalid proxy header format") ∧
    parseProxyHeader (str "GET / HTTP/1.1 and some more words\r\n") =
        Except.error (str "invalid proxy header format") :=
  ⟨parseProxyHeader_rejects _ (Or.inl (by decide)),
   parseProxyHeader_rejects _ (Or.inr (by decide))⟩

/-! ## C8: which forwarders a service starts -/

/-- The UDP forwarders the loop of `startService` starts. -/
theorem startLoop_udp (svc : Service) (listen remote l r : GoString) (types : List GoString) :
    ServiceEvent.startUDPForwarder l r ∈ startLoop svc listen remote types ↔
      l = listen ∧ r = remote ∧ str "udp" ∈ types ∧
        ¬ (svc.Network.SendProxy = some true ∨ svc.Network.AcceptProxy = some true) := by
  have hne : str "udp" ≠ str "tcp" := by decide
  induction types with
  | nil => simp [startLoop]
  | cons t rest ih =>
    unfold startLoop
    by_cases hp : svc.Network.SendProxy = some true ∨ svc.Network.AcceptProxy = some true
    · by_cases hu : t = str "udp"
      · simp [hu, hp, ih]
      · by_cases ht : t = str "tcp"
        · simp [ht, hp, ih, hne.symm]
        · simp [hu, ht, hp, ih]
    · by_cases hu : t = str "udp"
      · simp only [hu, hp, and_false, if_false, hne, if_true, List.mem_cons,
          ServiceEvent.startUDPForwarder.injEq, ih, true_or, not_false_eq_true, and_true]
        constructor
        · rintro (⟨h1, h2⟩ | ⟨h1, h2, _⟩) <;> exact ⟨h1, h2⟩
        · rintro ⟨h1, h2⟩
          exact Or.inl ⟨h1, h2⟩
      · by_cases ht : t = str "tcp"
        · simp only [ht, hp, and_false, if_false, if_true, List.mem_cons, reduceCtorEq,
            false_or, ih, not_false_eq_true, and_true]
          constructor
          · rintro ⟨h1, h2, h3⟩
            exact ⟨h1, h2, Or.inr h3⟩
          · rintro ⟨h1, h2, h3 | h3⟩
            · exact absurd h3 hne
            · exact ⟨h1, h2, h3⟩
        · simp only [hu, ht, hp, and_false, if_false, ih, List.mem_cons, not_false_eq_true,
            and_true]
          constructor
          · rintro ⟨h1, h2, h3⟩
            exact ⟨h1, h2, Or.inr h3⟩
          · rintro ⟨h1, h2, h3 | h3⟩
            · exact absurd h3.symm hu
            · exact ⟨h1, h2, h3⟩

/-- The TCP forwarders the loop of `startService` starts. -/
theorem startLoop_tcp (svc : Service) (listen remote l r : GoString) (types : List GoString) :
    ServiceEvent.startTCPForwarder l r ∈ startLoop svc listen remote types ↔
      l = listen ∧ r = remote ∧ str "tcp" ∈ types := by
  have hne : str "tcp" ≠ str "udp" := by decide
  induction types with
  | nil => simp [startLoop]
  | cons t rest ih =>
    unfold startLoop
    by_cases ht : t = str "tcp"
    · simp only [ht, hne, false_and, if_false, if_true, List.mem_cons,
        ServiceEvent.startTCPForwarder.injEq, ih, true_or, and_true]
      constructor
      · rintro (⟨h1, h2⟩ | ⟨h1, h2, _⟩) <;> exact ⟨h1, h2⟩
      · rintro ⟨h1, h2⟩
        exact Or.inl ⟨h1, h2⟩
    · have key : (str "tcp" ∈ t :: rest) ↔ str "tcp" ∈ rest := by
        simp only [List.mem_cons]
        constructor
        · rintro (h | h)
          · exact absurd h.symm ht
          · exact h
        · exact Or.inr
      rw [key]
      split_ifs <;> simp [ih]

/-- C8: for a service whose listen address, remote address and transports
resolve, `startService` starts a UDP forwarder (on the resolved addresses, and
on no others) exactly when `udp` is among the transports and neither
`SendProxy` nor `AcceptProxy` is true, and it starts a TCP forwarder exactly
when `tcp` is among the transports, whatever the proxy flags are. -/
theorem startService_forwarders (parseAddress : GoString → Bool → Except GoString GoString)
    (unicodeLower : GoString → GoString) (svc : Service) (listen remote : GoString)
    (types : List GoString)
    (hl : parseAddress svc.Listen true = Except.ok listen)
    (hr : parseAddress svc.Remote false = Except.ok remote)
    (ht : parseNetworkType unicodeLower svc.Network.NetworkType = Except.ok types) :
    (∀ l r, ServiceEvent.startUDPForwarder l r ∈ startService parseAddress unicodeLower svc ↔
      l = listen ∧ r = remote ∧ str "udp" ∈ types ∧
        ¬ (svc.Network.SendProxy = some true ∨ svc.Network.AcceptProxy = some true)) ∧
    (∀ l r, ServiceEvent.startTCPForwarder l r ∈ startService parseAddress unicodeLower svc ↔
      l = listen ∧ r = remote ∧ str "tcp" ∈ types) := by
  have hs : startService parseAddress unicodeLower svc = startLoop svc listen remote types := by
    simp only [startService, hl, hr, ht]
  rw [hs]
  exact ⟨fun l r => startLoop_udp svc listen remote l r types,
    fun l r => startLoop_tcp svc listen remote l r types⟩

/-- C8, at a concrete service: a service on `both` with `SendProxy` set
starts its TCP forwarder and no
UDP forwarder. -/
theorem startService_forwarders_witness :
    (∀ l r, ServiceEvent.startUDPForwarder l r ∈
        startService (fun a _ => Except.ok a) (fun s => s)
          { Name := str "web", Listen := str "127.0.0.1:9000", Remote := str "127.0.0.1:9001",
            Network := { NetworkType := NetworkTypeValue.string (str "both"),
                         SendProxy := some true, AcceptProxy := none } } ↔
      l = str "127.0.0.1:9000" ∧ r = str "127.0.0.1:9001" ∧
        str "udp" ∈ [str "tcp", str "udp"] ∧
        ¬ ((some true : Option Bool) = some true ∨ (none : Option Bool) = some true)) ∧
    (∀ l r, ServiceEvent.startTCPForwarder l r ∈
        startService (fun a _ => Except.ok a) (fun s => s)
          { Name := str "web", Listen := str "127.0.0.1:9000", Remote := str "127.0.0.1:9001",
            Network := { NetworkType := NetworkTypeValue.string (str "both"),
                         SendProxy := some true, AcceptProxy := none } } ↔
      l = str "127.0.0.1:9000" ∧ r = str "127.0.0.1:9001" ∧
        str "tcp" ∈ [str "tcp", str "udp"]) :=
  startService_forwarders (fun a _ => Except.ok a) (fun s => s)
    { Name := str "web", Listen := str "127.0.0.1:9000", Remote := str "127.0.0.1:9001",
      Network := { NetworkType := NetworkTypeValue.string (str "both"),
                   SendProxy := some true, AcceptProxy := none } }
    (str "127.0.0.1:9000") (str "127.0.0.1:9001") [str "tcp", str "udp"] rfl rfl (by decide)

/-! ## C10: the admission gate of the UDP forwarder -/

/-- The gate is in order before the first read. -/
theorem gateInv_init : GateInv udpInit := by
  simp [GateInv, udpInit, semCapacity]

/-- Every step keeps the gate in order. -/
theorem gateInv_step (s t : UDPState) (e : UDPEvent) (hs : GateInv s)
    (h : udpStep s e = some t) : GateInv t := by
  obtain ⟨h1, h2⟩ := hs
  cases e with
  | readError =>
    simp only [udpStep] at h
    split_ifs at h with hc
    cases h
    exact ⟨h1, h2⟩
  | readDatagram =>
    simp only [udpStep] at h
    split_ifs at h with hc
    cases h
    simp only [GateInv, reduceCtorEq, if_false, add_zero]
    simp only [hc, reduceCtorEq, if_false, add_zero] at h1
    exact ⟨h1, h2⟩
  | acquireSlot =>
    simp only [udpStep] at h
    split_ifs at h with hc
    cases h
    simp only [GateInv, if_true]
    simp only [hc.1, reduceCtorEq, if_false, add_zero] at h1
    have := hc.2
    simp only [semCapacity] at *
    omega
  | startWorker =>
    simp only [udpStep] at h
    split_ifs at h with hc
    cases h
    simp only [GateInv, reduceCtorEq, if_false, add_zero, List.length_cons]
    simp only [hc, if_true] at h1
    exact ⟨h1, h2⟩
  | forwardError i =>
    simp only [udpStep] at h
    split_ifs at h with hc
    cases h
    simp only [GateInv, List.length_set]
    exact ⟨h1, h2⟩
  | forwardDone i =>
    simp only [udpStep] at h
    split_ifs at h with hc
    cases h
    simp only [GateInv, List.length_set]
    exact ⟨h1, h2⟩
  | replyError i =>
    simp only [udpStep] at h
    split_ifs at h with hc
    cases h
    simp only [GateInv, List.length_set]
    exact ⟨h1, h2⟩
  | replyDone i =>
    simp only [udpStep] at h
    split_ifs at h with hc
    cases h
    simp only [GateInv, List.length_set]
    exact ⟨h1, h2⟩
  | releaseSlot i =>
    simp only [udpStep] at h
    split_ifs at h with hc
    cases h
    have hi : i < s.workers.length := by
      have := hc.1
      obtain ⟨hlt, _⟩ := List.getElem?_eq_some.mp this
      exact hlt
    simp only [GateInv, List.length_eraseIdx, hi, if_true]
    have := hc.2
    constructor
    · omega
    · omega

/-- Every run keeps the gate in order. -/
theorem gateInv_run (events : List UDPEvent) (s t : UDPState) (hs : GateInv s)
    (h : udpRun s events = some t) : GateInv t := by
  induction events generalizing s with
  | nil =>
    simp only [udpRun, Option.some.injEq] at h
    exact h ▸ hs
  | cons e es ih =>
    simp only [udpRun] at h
    cases hstep : udpStep s e with
    | none => simp [hstep] at h
    | some u =>
      simp only [hstep] at h
      exact ih u (gateInv_step s u e hs hstep) h

/-- C10: in every state a UDP forwarder reaches, at most 1000 per-datagram
forward operations are in flight. The channel holds exactly one element for
each of them (and one more between the send and the `go` statement): the loop
cannot start an operation without a slot, the send blocks when 1000 slots are
taken, and a goroutine that has ended its work, on each of its paths (forward
error, reply error, reply done), gives its slot back without blocking. -/
theorem udp_inflight_bound (events : List UDPEvent) (s : UDPState)
    (h : udpRun udpInit events = some s) :
    inFlight s ≤ 1000 ∧
    s.sem = inFlight s + (if s.loop = LoopPc.dispatch then 1 else 0) ∧
    (inFlight s = 1000 → udpStep s UDPEvent.acquireSlot = none) ∧
    (∀ t, udpStep s UDPEvent.startWorker = some t → s.loop = LoopPc.dispatch ∧
      inFlight t = inFlight s + 1 ∧ t.sem = s.sem) ∧
    (∀ i, s.workers[i]? = some WorkerPc.forward →
      udpStep s (UDPEvent.forwardError i) = some { s with workers := s.workers.set i WorkerPc.release } ∧
      udpStep s (UDPEvent.forwardDone i) = some { s with workers := s.workers.set i WorkerPc.reply }) ∧
    (∀ i, s.workers[i]? = some WorkerPc.reply →
      udpStep s (UDPEvent.replyError i) = some { s with workers := s.workers.set i WorkerPc.release } ∧
      udpStep s (UDPEvent.replyDone i) = some { s with workers := s.workers.set i WorkerPc.release }) ∧
    (∀ i, s.workers[i]? = some WorkerPc.release →
      ∃ t, udpStep s (UDPEvent.releaseSlot i) = some t ∧ t.sem + 1 = s.sem ∧
        inFlight t + 1 = inFlight s) := by
  have inv := gateInv_run events udpInit s gateInv_init h
  obtain ⟨h1, h2⟩ := inv
  simp only [semCapacity] at h2
  refine ⟨?_, ?_, ?_, ?_, ?_, ?_, ?_⟩
  · simp only [inFlight]; omega
  · exact h1
  · intro hfull
    simp only [inFlight] at hfull
    simp only [udpStep, semCapacity]
    rw [if_neg]
    rintro ⟨_, hlt⟩
    omega
  · intro t ht
    simp only [udpStep] at ht
    split_ifs at ht with hc
    cases ht
    exact ⟨hc, by simp [inFlight], rfl⟩
  · intro i hi
    simp [udpStep, hi]
  · intro i hi
    simp [udpStep, hi]
  · intro i hi
    have hlen : i < s.workers.length := by
      obtain ⟨hlt, _⟩ := List.getElem?_eq_some.mp hi
      exact hlt
    have hpos : 0 < s.sem := by omega
    refine ⟨{ s with sem := s.sem - 1, workers := s.workers.eraseIdx i }, ?_, ?_, ?_⟩
    · simp [udpStep, hi, hpos]
    · simp only; omega
    · simp only [inFlight, List.length_eraseIdx, hlen, if_true]; omega

/-- C10, at a concrete run: two datagrams are admitted and one operation
ends. -/
theorem udp_inflight_bound_witness :
    inFlight { loop := LoopPc.read, sem := 1, workers := [WorkerPc.forward] } ≤ 1000 :=
  (udp_inflight_bound
    [UDPEvent.readDatagram, UDPEvent.acquireSlot, UDPEvent.startWorker, UDPEvent.readError,
     UDPEvent.readDatagram, UDPEvent.acquireSlot, UDPEvent.startWorker,
     UDPEvent.forwardError 1, UDPEvent.releaseSlot 1]
    { loop := LoopPc.read, sem := 1, workers := [WorkerPc.forward] } (by decide)).1

/-! ## C7: a sequence of transports -/

/-- The loop over a `[]string` on elements that are all transports. -/
theorem stringsLoop_ok (u : GoString → GoString) (v acc : List GoString)
    (h : ∀ n ∈ v, isTransport (normalise u n)) :
    stringsLoop u v acc = Except.ok (acc ++ v.map (normalise u)) := by
  induction v generalizing acc with
  | nil => simp [stringsLoop]
  | cons n rest ih =>
    have hn : isTransport (normalise u n) := h n (List.mem_cons_self _ _)
    have hrest : ∀ m ∈ rest, isTransport (normalise u m) :=
      fun m hm => h m (List.mem_cons_of_mem _ hm)
    have hcond : ¬ (ToLower u (TrimSpace n) ≠ str "tcp" ∧ ToLower u (TrimSpace n) ≠ str "udp") := by
      rintro ⟨h1, h2⟩
      rcases hn with h3 | h3
      · exact h1 h3
      · exact h2 h3
    simp only [stringsLoop, hcond, if_false]
    rw [ih _ hrest]
    simp [normalise]

/-- The loop over a `[]string` whose first element that is no transport is
`bad`. -/
theorem stringsLoop_error (u : GoString → GoString) (pre post acc : List GoString)
    (bad : GoString) (hpre : ∀ n ∈ pre, isTransport (normalise u n))
    (hbad : ¬ isTransport (normalise u bad)) :
    stringsLoop u (pre ++ bad :: post) acc =
      Except.error (str "invalid network type in array: " ++ normalise u bad) := by
  induction pre generalizing acc with
  | nil =>
    have hcond : ToLower u (TrimSpace bad) ≠ str "tcp" ∧ ToLower u (TrimSpace bad) ≠ str "udp" :=
      ⟨fun e => hbad (Or.inl e), fun e => hbad (Or.inr e)⟩
    simp only [List.nil_append, stringsLoop, normalise]
    rw [if_pos hcond]
  | cons n rest ih =>
    have hn : isTransport (normalise u n) := hpre n (List.mem_cons_self _ _)
    have hrest : ∀ m ∈ rest, isTransport (normalise u m) :=
      fun m hm => hpre m (List.mem_cons_of_mem _ hm)
    have hcond : ¬ (ToLower u (TrimSpace n) ≠ str "tcp" ∧ ToLower u (TrimSpace n) ≠ str "udp") := by
      rintro ⟨h1, h2⟩
      rcases hn with h3 | h3
      · exact h1 h3
      · exact h2 h3
    simp only [List.cons_append, stringsLoop, hcond, if_false]
    exact ih _ hrest

/-- On strings the loop over a `[]interface{}` is the loop over a
`[]string`. -/
theorem anysLoop_strings (u : GoString → GoString) (v acc : List GoString) :
    anysLoop u (v.map AnyValue.string) acc = stringsLoop u v acc := by
  induction v generalizing acc with
  | nil => simp [anysLoop, stringsLoop]
  | cons n rest ih =>
    simp only [List.map_cons, anysLoop, stringsLoop]
    split_ifs
    · rfl
    · exact ih _

/-- C7: for a non-empty sequence of strings, given as a `[]string` or as a
`[]interface{}` of strings: when every element, trimmed and lower-cased, is
`tcp` or `udp`, `parseNetworkType` returns these normalised elements in order;
when `bad` is the first element that is not (all elements before it are), the
call fails, returns no transports, and its error is
`invalid network type in array: ` followed by the normalised `bad`. -/
theorem parseNetworkType_sequence (u : GoString → GoString) (v : List GoString) (hv : v ≠ []) :
    ((∀ n ∈ v, isTransport (normalise u n)) →
      parseNetworkType u (NetworkTypeValue.strings v) = Except.ok (v.map (normalise u)) ∧
      parseNetworkType u (NetworkTypeValue.anys (v.map AnyValue.string)) =
        Except.ok (v.map (normalise u))) ∧
    (∀ pre bad post, v = pre ++ bad :: post → (∀ n ∈ pre, isTransport (normalise u n)) →
      ¬ isTransport (normalise u bad) →
      parseNetworkType u (NetworkTypeValue.strings v) =
        Except.error (str "invalid network type in array: " ++ normalise u bad) ∧
      parseNetworkType u (NetworkTypeValue.anys (v.map AnyValue.string)) =
        Except.error (str "invalid network type in array: " ++ normalise u bad)) := by
  have hlen : ¬ v.length = 0 := by
    intro h0
    exact hv (List.length_eq_zero.mp h0)
  have hlen2 : ¬ (v.map AnyValue.string).length = 0 := by
    rw [List.length_map]
    exact hlen
  constructor
  · intro hall
    constructor
    · simp only [parseNetworkType, hlen, if_false]
      rw [stringsLoop_ok u v [] hall]
      simp
    · simp only [parseNetworkType, hlen2, if_false]
      rw [anysLoop_strings, stringsLoop_ok u v [] hall]
      simp
  · intro pre bad post hsplit hpre hbad
    constructor
    · simp only [parseNetworkType, hlen, if_false]
      rw [hsplit]
      exact stringsLoop_error u pre post [] bad hpre hbad
    · simp only [parseNetworkType, hlen2, if_false]
      rw [anysLoop_strings, hsplit]
      exact stringsLoop_error u pre post [] bad hpre hbad

/-- C7, at concrete sequences: ` TCP `, `Udp` gives `tcp`, `udp`; in `tcp`,
` IPX`, `udp`, `x` the element `ipx` is named. -/
theorem parseNetworkType_sequence_witness :
    parseNetworkType (fun s => s) (NetworkTypeValue.strings [str " TCP ", str "Udp"]) =
      Except.ok [str "tcp", str "udp"] ∧
    parseNetworkType (fun s => s)
        (NetworkTypeValue.anys [AnyValue.string (str "tcp"), AnyValue.string (str " IPX"),
          AnyValue.string (str "udp"), AnyValue.string (str "x")]) =
      Except.error (str "invalid network type in array: ipx") :=
  ⟨((parseNetworkType_sequence (fun s => s) [str " TCP ", str "Udp"] (by decide)).1
      (by decide)).1,
   ((parseNetworkType_sequence (fun s => s) [str "tcp", str " IPX", str "udp", str "x"]
      (by decide)).2 [str "tcp"] (str " IPX") [str "udp", str "x"] rfl (by decide)
      (by decide)).2⟩

/-! ## C9: the transports of a service -/

/-- `Split` never returns the empty list. -/
theorem Split_ne_nil (s : GoString) (sep : Nat) : Split s sep ≠ [] := by
  cases s with
  | nil => simp [Split]
  | cons c rest =>
    unfold Split
    split_ifs
    · simp
    · split <;> simp

/-- What the loop over a bracketed string returns, when it succeeds. -/
theorem bracketLoop_result (l acc r : List GoString)
    (h : bracketLoop l acc = Except.ok r) (hacc : ∀ t ∈ acc, isTransport t) :
    (∀ t ∈ r, isTransport t) ∧ r.length = acc.length + l.length := by
  induction l generalizing acc with
  | nil =>
    simp only [bracketLoop, Except.ok.injEq] at h
    subst h
    exact ⟨hacc, by simp⟩
  | cons n rest ih =>
    simp only [bracketLoop] at h
    split_ifs at h with hc
    have hn : isTransport (TrimSpace n) := by
      by_contra hcon
      exact hc ⟨fun e => hcon (Or.inl e), fun e => hcon (Or.inr e)⟩
    have hacc2 : ∀ t ∈ acc ++ [TrimSpace n], isTransport t := by
      intro t ht
      rcases List.mem_append.mp ht with h1 | h1
      · exact hacc t h1
      · rw [List.mem_singleton.mp h1]
        exact hn
    obtain ⟨h1, h2⟩ := ih _ h hacc2
    refine ⟨h1, ?_⟩
    rw [h2]
    simp only [List.length_append, List.length_cons, List.length_nil]
    omega

/-- What the loop over a `[]string` returns, when it succeeds. -/
theorem stringsLoop_result (u : GoString → GoString) (l acc r : List GoString)
    (h : stringsLoop u l acc = Except.ok r) (hacc : ∀ t ∈ acc, isTransport t) :
    (∀ t ∈ r, isTransport t) ∧ r.length = acc.length + l.length := by
  induction l generalizing acc with
  | nil =>
    simp only [stringsLoop, Except.ok.injEq] at h
    subst h
    exact ⟨hacc, by simp⟩
  | cons n rest ih =>
    simp only [stringsLoop] at h
    split_ifs at h with hc
    have hn : isTransport (ToLower u (TrimSpace n)) := by
      by_contra hcon
      exact hc ⟨fun e => hcon (Or.inl e), fun e => hcon (Or.inr e)⟩
    have hacc2 : ∀ t ∈ acc ++ [ToLower u (TrimSpace n)], isTransport t := by
      intro t ht
      rcases List.mem_append.mp ht with h1 | h1
      · exact hacc t h1
      · rw [List.mem_singleton.mp h1]
        exact hn
    obtain ⟨h1, h2⟩ := ih _ h hacc2
    refine ⟨h1, ?_⟩
    rw [h2]
    simp only [List.length_append, List.length_cons, List.length_nil]
    omega

/-- What the loop over a `[]interface{}` returns, when it succeeds. -/
theorem anysLoop_result (u : GoString → GoString) (l : List AnyValue) (acc r : List GoString)
    (h : anysLoop u l acc = Except.ok r) (hacc : ∀ t ∈ acc, isTransport t) :
    (∀ t ∈ r, isTransport t) ∧ r.length = acc.length + l.length := by
  induction l generalizing acc with
  | nil =>
    simp only [anysLoop, Except.ok.injEq] at h
    subst h
    exact ⟨hacc, by simp⟩
  | cons a rest ih =>
    cases a with
    | other ty => simp [anysLoop] at h
    | string n =>
      simp only [anysLoop] at h
      split_ifs at h with hc
      have hn : isTransport (ToLower u (TrimSpace n)) := by
        by_contra hcon
        exact hc ⟨fun e => hcon (Or.inl e), fun e => hcon (Or.inr e)⟩
      have hacc2 : ∀ t ∈ acc ++ [ToLower u (TrimSpace n)], isTransport t := by
        intro t ht
        rcases List.mem_append.mp ht with h1 | h1
        · exact hacc t h1
        · rw [List.mem_singleton.mp h1]
          exact hn
      obtain ⟨h1, h2⟩ := ih _ h hacc2
      refine ⟨h1, ?_⟩
      rw [h2]
      simp only [List.length_append, List.length_cons, List.length_nil]
      omega

/-- Every successful result of `parseNetworkType` is a non-empty list of
transports. -/
theorem parseNetworkType_transports (u : GoString → GoString) (v : NetworkTypeValue)
    (types : List GoString) (h : parseNetworkType u v = Except.ok types) :
    types ≠ [] ∧ ∀ t ∈ types, isTransport t := by
  have none_in : ∀ t ∈ ([] : List GoString), isTransport t := by simp
  have one : ∀ r : List GoString, Except.ok [str "tcp"] = (Except.ok r : Except GoString _) →
      r ≠ [] ∧ ∀ t ∈ r, isTransport t := by
    intro r hr
    simp only [Except.ok.injEq] at hr
    subst hr
    exact ⟨by simp, by simp [isTransport]⟩
  have pos : ∀ r : List GoString, ∀ n : Nat, 0 < n → r.length = 0 + n → r ≠ [] := by
    intro r n hn hr hnil
    rw [hnil] at hr
    simp at hr
    omega
  cases v with
  | nil => exact one _ h
  | other ty => simp [parseNetworkType] at h
  | string s =>
    simp only [parseNetworkType] at h
    split_ifs at h with h0 h1 h2 h3
    · exact one _ h
    · simp only [Except.ok.injEq] at h
      subst h
      exact ⟨by simp, by simp [isTransport]⟩
    · simp only [Except.ok.injEq] at h
      subst h
      exact ⟨by simp, by simpa [isTransport] using h2⟩
    · obtain ⟨r1, r2⟩ := bracketLoop_result _ [] types h none_in
      refine ⟨pos types _ ?_ r2, r1⟩
      exact List.length_pos.mpr (Split_ne_nil _ _)
  | strings l =>
    simp only [parseNetworkType] at h
    split_ifs at h with h0
    · exact one _ h
    · obtain ⟨r1, r2⟩ := stringsLoop_result u l [] types h none_in
      exact ⟨pos types _ (Nat.pos_of_ne_zero h0) r2, r1⟩
  | anys l =>
    simp only [parseNetworkType] at h
    split_ifs at h with h0
    · exact one _ h
    · obtain ⟨r1, r2⟩ := anysLoop_result u l [] types h none_in
      exact ⟨pos types _ (Nat.pos_of_ne_zero h0) r2, r1⟩

/-- The loop of `startService` starts one TCP forwarder for each `tcp` in the
list and, unless a proxy flag is set, one UDP forwarder for each `udp`. -/
theorem startLoop_counts (svc : Service) (listen remote : GoString) (types : List GoString) :
    ((startLoop svc listen remote types).filter isTCPStart).length = (types.filter (fun t => decide (t = str "tcp"))).length ∧
    ((startLoop svc listen remote types).filter isUDPStart).length =
      (if svc.Network.SendProxy = some true ∨ svc.Network.AcceptProxy = some true then 0
       else (types.filter (fun t => decide (t = str "udp"))).length) := by
  have hne : str "tcp" ≠ str "udp" := by decide
  induction types with
  | nil => simp [startLoop]
  | cons t rest ih =>
    obtain ⟨ih1, ih2⟩ := ih
    simp only [List.filter_cons]
    unfold startLoop
    by_cases hp : svc.Network.SendProxy = some true ∨ svc.Network.AcceptProxy = some true
    · simp only [hp, if_true] at ih2 ⊢
      by_cases hu : t = str "udp"
      · subst hu
        simp [isTCPStart, isUDPStart, ih1, ih2, hne.symm]
      · by_cases ht : t = str "tcp"
        · subst ht
          simp [isTCPStart, isUDPStart, ih1, ih2, hne]
        · simp [isTCPStart, isUDPStart, ih1, ih2, hu, ht]
    · simp only [hp, if_false] at ih2 ⊢
      by_cases hu : t = str "udp"
      · subst hu
        simp [isTCPStart, isUDPStart, ih1, ih2, hne.symm]
      · by_cases ht : t = str "tcp"
        · subst ht
          simp [isTCPStart, isUDPStart, ih1, ih2, hne]
        · simp [isTCPStart, isUDPStart, ih1, ih2, hu, ht]

/-- A list without repetition has at most one element equal to `a`. -/
theorem nodup_filter_eq_length (l : List GoString) (a : GoString) (h : l.Nodup) :
    (l.filter (fun t => decide (t = a))).length ≤ 1 := by
  induction l with
  | nil => simp
  | cons x xs ih =>
    obtain ⟨hx, hxs⟩ := List.nodup_cons.mp h
    by_cases hxa : x = a
    · subst hxa
      have hnil : xs.filter (fun t => decide (t = x)) = [] := by
        rw [List.filter_eq_nil_iff]
        intro t ht
        simp only [decide_eq_true_eq]
        rintro rfl
        exact hx ht
      simp [List.filter_cons, hnil]
    · simp only [List.filter_cons, hxa, decide_False, Bool.false_eq_true, if_false]
      exact ih hxs

/-- C9 (as stated it fails): the sequence `tcp`, `tcp`, and the string
`[tcp,tcp]`, are accepted with `tcp` twice in the result, and `startService`
then starts two TCP forwarders for the one service. -/
theorem parseNetworkType_keeps_duplicates :
    parseNetworkType (fun s => s) (NetworkTypeValue.strings [str "tcp", str "tcp"]) =
      Except.ok [str "tcp", str "tcp"] ∧
    parseNetworkType (fun s => s) (NetworkTypeValue.string (str "[tcp,tcp]")) =
      Except.ok [str "tcp", str "tcp"] ∧
    startService (fun a _ => Except.ok a) (fun s => s)
        { Name := str "web", Listen := str "127.0.0.1:9000", Remote := str "127.0.0.1:9001",
          Network := { NetworkType := NetworkTypeValue.strings [str "tcp", str "tcp"],
                       SendProxy := none, AcceptProxy := none } } =
      [ServiceEvent.startTCPForwarder (str "127.0.0.1:9000") (str "127.0.0.1:9001"),
       ServiceEvent.startTCPForwarder (str "127.0.0.1:9000") (str "127.0.0.1:9001")] := by
  refine ⟨?_, ?_, ?_⟩ <;> decide

/-- C9 (amended): whenever `parseNetworkType` succeeds, its result is a
non-empty list whose elements are all `tcp` or `udp`; `startService` starts
one TCP forwarder for each `tcp` in it and, unless a proxy flag is set, one UDP
forwarder for each `udp`, hence at most one of each when no transport occurs
twice in the list. -/
theorem parseNetworkType_result (u : GoString → GoString) (v : NetworkTypeValue)
    (types : List GoString) (h : parseNetworkType u v = Except.ok types) :
    types ≠ [] ∧ (∀ t ∈ types, t = str "tcp" ∨ t = str "udp") ∧
    (∀ (parseAddress : GoString → Bool → Except GoString GoString) (svc : Service)
        (listen remote : GoString),
      svc.Network.NetworkType = v →
      parseAddress svc.Listen true = Except.ok listen →
      parseAddress svc.Remote false = Except.ok remote →
      ((startService parseAddress u svc).filter isTCPStart).length = (types.filter (fun t => decide (t = str "tcp"))).length ∧
      ((startService parseAddress u svc).filter isUDPStart).length =
        (if svc.Network.SendProxy = some true ∨ svc.Network.AcceptProxy = some true then 0
         else (types.filter (fun t => decide (t = str "udp"))).length) ∧
      (types.Nodup →
        ((startService parseAddress u svc).filter isTCPStart).length ≤ 1 ∧
        ((startService parseAddress u svc).filter isUDPStart).length ≤ 1)) := by
  obtain ⟨h1, h2⟩ := parseNetworkType_transports u v types h
  refine ⟨h1, h2, ?_⟩
  intro parseAddress svc listen remote hv hl hr
  have hs : startService parseAddress u svc = startLoop svc listen remote types := by
    simp only [startService, hl, hr, hv, h]
  obtain ⟨c1, c2⟩ := startLoop_counts svc listen remote types
  rw [hs]
  refine ⟨c1, c2, ?_⟩
  intro hnd
  rw [c1, c2]
  constructor
  · exact nodup_filter_eq_length types _ hnd
  · split_ifs
    · omega
    · exact nodup_filter_eq_length types _ hnd

/-- C9, at a concrete input: the string `Both` gives the two transports. -/
theorem parseNetworkType_result_witness :
    [str "tcp", str "udp"] ≠ [] ∧
    (∀ t ∈ [str "tcp", str "udp"], t = str "tcp" ∨ t = str "udp") :=
  ⟨(parseNetworkType_result (fun s => s) (NetworkTypeValue.string (str "Both"))
      [str "tcp", str "udp"] (by decide)).1,
   (parseNetworkType_result (fun s => s) (NetworkTypeValue.string (str "Both"))
      [str "tcp", str "udp"] (by decide)).2.1⟩

/-! ## C6: an absent value or a single string -/

/-- The loop over the pieces of a bracketed string finds the first piece
that is no transport. -/
theorem bracketLoop_eq (l acc : List GoString) :
    bracketLoop l acc =
      match (l.map TrimSpace).find? (fun e => decide (e ≠ str "tcp" ∧ e ≠ str "udp")) with
      | none => Except.ok (acc ++ l.map TrimSpace)
      | some bad => Except.error (str "invalid network type in array: " ++ bad) := by
  induction l generalizing acc with
  | nil => simp [bracketLoop]
  | cons n rest ih =>
    simp only [bracketLoop, List.map_cons]
    by_cases hc : TrimSpace n ≠ str "tcp" ∧ TrimSpace n ≠ str "udp"
    · rw [if_pos hc]
      simp only [List.find?_cons, decide_eq_true hc]
    · rw [if_neg hc, ih]
      simp only [List.find?_cons, decide_eq_false hc]
      cases List.find? (fun e => decide (e ≠ str "tcp" ∧ e ≠ str "udp")) (rest.map TrimSpace) with
      | none => simp
      | some b => rfl

/-- A string starts with `[` when its first byte is `[`. -/
theorem hasPrefix_bracket (v : GoString) : HasPrefix v (str "[") = true ↔ v.head? = some 91 := by
  have hs : str "[" = [91] := by decide
  rw [hs]
  cases v with
  | nil => simp [HasPrefix, List.isPrefixOf]
  | cons c rest =>
    simp only [HasPrefix, List.isPrefixOf, List.head?_cons, Option.some.injEq, Bool.and_true,
      beq_iff_eq]
    exact eq_comm

/-- A string ends with `]` when its last byte is `]`. -/
theorem hasSuffix_bracket (v : GoString) : HasSuffix v (str "]") = true ↔ v.getLast? = some 93 := by
  have hs : str "]" = [93] := by decide
  rw [hs, ← List.head?_reverse]
  cases hr : v.reverse with
  | nil => simp [HasSuffix, List.isSuffixOf, hr, List.isPrefixOf]
  | cons c rest =>
    simp only [HasSuffix, List.isSuffixOf, hr, List.reverse_cons, List.reverse_nil,
      List.nil_append, List.isPrefixOf, List.head?_cons, Option.some.injEq, Bool.and_true,
      beq_iff_eq]
    exact eq_comm

/-- C6 (as stated it fails): the strings `[tcp]`, `[udp]`, `[ tcp , udp ]`
and `[[TCP]]` are none of the strings the claim lists, and `parseNetworkType`
accepts them, reading the bracketed list element by element. -/
theorem parseNetworkType_accepts_other_lists :
    parseNetworkType (fun s => s) (NetworkTypeValue.string (str "[tcp]")) =
      Except.ok [str "tcp"] ∧
    parseNetworkType (fun s => s) (NetworkTypeValue.string (str "[udp]")) =
      Except.ok [str "udp"] ∧
    parseNetworkType (fun s => s) (NetworkTypeValue.string (str "[ tcp , udp ]")) =
      Except.ok [str "tcp", str "udp"] ∧
    parseNetworkType (fun s => s) (NetworkTypeValue.string (str "[[TCP]]")) =
      Except.ok [str "tcp"] := by
  refine ⟨?_, ?_, ?_, ?_⟩ <;> decide

/-- C6 (amended): on an absent value or a single string `parseNetworkType`
is the reference `selectReference`: absent or empty gives `tcp`; otherwise the
lower-cased string `both` gives `tcp, udp`, `tcp` and `udp` give that one, a
string between `[` and `]` is read element by element (so `[tcp,udp]` gives
`tcp, udp` and `[udp,tcp]` gives `udp, tcp`, in any letter case), and every
other string fails with `invalid network type: ` and the lower-cased
string. -/
theorem parseNetworkType_single (u : GoString → GoString) :
    parseNetworkType u NetworkTypeValue.nil = selectReference u none ∧
    (∀ s, parseNetworkType u (NetworkTypeValue.string s) = selectReference u (some s)) ∧
    (∀ s, ToLower u s = str "[tcp,udp]" →
      parseNetworkType u (NetworkTypeValue.string s) = Except.ok [str "tcp", str "udp"]) ∧
    (∀ s, ToLower u s = str "[udp,tcp]" →
      parseNetworkType u (NetworkTypeValue.string s) = Except.ok [str "udp", str "tcp"]) ∧
    (∀ s, s ≠ [] → ToLower u s ≠ str "both" → ToLower u s ≠ str "tcp" →
      ToLower u s ≠ str "udp" →
      ¬ ((ToLower u s).head? = some 91 ∧ (ToLower u s).getLast? = some 93) →
      parseNetworkType u (NetworkTypeValue.string s) =
        Except.error (str "invalid network type: " ++ ToLower u s)) := by
  have main : ∀ s, parseNetworkType u (NetworkTypeValue.string s) = selectReference u (some s) := by
    intro s
    simp only [parseNetworkType, selectReference]
    by_cases h0 : s = []
    · simp only [h0, if_true]
    · simp only [h0, if_false]
      by_cases h1 : ToLower u s = str "both"
      · simp only [h1, if_true]
      · simp only [h1, if_false]
        by_cases h2 : ToLower u s = str "tcp"
        · simp only [h2, true_or, if_true]
        · by_cases h3 : ToLower u s = str "udp"
          · have hne : str "udp" ≠ str "tcp" := by decide
            simp only [h3, or_true, if_true, hne, if_false]
          · simp only [h2, h3, or_self, if_false]
            by_cases hb : (ToLower u s).head? = some 91 ∧ (ToLower u s).getLast? = some 93
            · have hp := (hasPrefix_bracket _).mpr hb.1
              have hq := (hasSuffix_bracket _).mpr hb.2
              simp only [hp, hq, Bool.and_self, if_true, hb, and_self]
              rw [bracketLoop_eq]
              simp only [List.nil_append]
            · have hpq : ¬ ((HasPrefix (ToLower u s) (str "[") && HasSuffix (ToLower u s) (str "]"))
                  = true) := by
                rw [Bool.and_eq_true, hasPrefix_bracket, hasSuffix_bracket]
                exact hb
              simp [hpq, hb]
  refine ⟨rfl, main, ?_, ?_, ?_⟩
  · intro s hs
    have hne : s ≠ [] := by
      rintro rfl
      revert hs
      simp only [ToLower, List.all_nil, if_true, List.map_nil]
      decide
    rw [main]
    simp only [selectReference, hne, if_false, hs]
    decide
  · intro s hs
    have hne : s ≠ [] := by
      rintro rfl
      revert hs
      simp only [ToLower, List.all_nil, if_true, List.map_nil]
      decide
    rw [main]
    simp only [selectReference, hne, if_false, hs]
    decide
  · intro s h0 h1 h2 h3 hb
    rw [main]
    simp only [selectReference, h0, h1, h2, h3, hb, if_false]

/-! ## C4: the fields of a header -/

/-- Reading more digits does not lower the value. -/
theorem digitsValue_ge (s : GoString) (n : Nat) : n ≤ digitsValue n s := by
  induction s generalizing n with
  | nil => simp [digitsValue]
  | cons c rest ih =>
    have h := ih (n * 10 + (c - 48))
    simp only [digitsValue, List.foldl_cons] at h ⊢
    omega

/-- The fast loop of `Atoi` on a run of digits. -/
theorem atoiFastLoop_digits (s : GoString) (n : Nat) (h : s.all isDigit = true) :
    atoiFastLoop s n = some (digitsValue n s) := by
  induction s generalizing n with
  | nil => simp [atoiFastLoop, digitsValue]
  | cons c rest ih =>
    simp only [List.all_cons, Bool.and_eq_true] at h
    have hc : 48 ≤ c ∧ c ≤ 57 := by simpa [isDigit] using h.1
    simp only [atoiFastLoop, hc, and_self, if_true]
    rw [ih _ h.2]
    simp [digitsValue]

/-- The fast loop of `Atoi` on a string that has a byte that is no digit. -/
theorem atoiFastLoop_not_digits (s : GoString) (n : Nat) (h : s.all isDigit = false) :
    atoiFastLoop s n = none := by
  induction s generalizing n with
  | nil => simp at h
  | cons c rest ih =>
    by_cases hc : 48 ≤ c ∧ c ≤ 57
    · have hr : rest.all isDigit = false := by
        have hd : isDigit c = true := by simpa [isDigit] using hc
        simpa [List.all_cons, hd] using h
      simp only [atoiFastLoop, hc, and_self, if_true]
      exact ih _ hr
    · simp only [atoiFastLoop, hc, if_false]

/-- The loop of `ParseUint` on a run of digits whose value fits 64 bits. -/
theorem parseUintLoop_digits (s : GoString) (n : Nat) (h : s.all isDigit = true)
    (hv : digitsValue n s < 2 ^ 64) : parseUintLoop s n = (digitsValue n s, none) := by
  induction s generalizing n with
  | nil => simp [parseUintLoop, digitsValue]
  | cons c rest ih =>
    simp only [List.all_cons, Bool.and_eq_true] at h
    have hc : 48 ≤ c ∧ c ≤ 57 := by simpa [isDigit] using h.1
    have hstep : digitsValue n (c :: rest) = digitsValue (n * 10 + (c - 48)) rest := by
      simp [digitsValue]
    rw [hstep] at hv ⊢
    have hge := digitsValue_ge rest (n * 10 + (c - 48))
    have hlt : n * 10 + (c - 48) < 18446744073709551616 := by
      norm_num at hv
      omega
    have h1 : ¬ n ≥ (2 ^ 64 - 1) / 10 + 1 := by
      norm_num
      omega
    have h2 : (n * 10) % 2 ^ 64 = n * 10 := by
      norm_num
      omega
    have h3 : (n * 10 + (c - 48)) % 2 ^ 64 = n * 10 + (c - 48) := by
      norm_num
      omega
    have h4 : ¬ (n * 10 + (c - 48) < n * 10 ∨ n * 10 + (c - 48) > 2 ^ 64 - 1) := by
      norm_num
      omega
    simp only [parseUintLoop, hc, and_self, if_true, h1, if_false, h2, h3, h4]
    exact ih _ h.2 hv

/-- The loop of `ParseUint` meets a byte that is no digit before any
overflow when at most 19 bytes are read in all. -/
theorem parseUintLoop_not_digits (s : GoString) (n k : Nat) (h : s.all isDigit = false)
    (hn : n < 10 ^ k) (hk : k + s.length ≤ 19) :
    parseUintLoop s n = (0, some NumError.ErrSyntax) := by
  induction s generalizing n k with
  | nil => simp at h
  | cons c rest ih =>
    by_cases hc : 48 ≤ c ∧ c ≤ 57
    · have hr : rest.all isDigit = false := by
        have hd : isDigit c = true := by simpa [isDigit] using hc
        simpa [List.all_cons, hd] using h
      have hrest : 1 ≤ rest.length := by
        cases rest with
        | nil => simp at hr
        | cons d ds => simp
      simp only [List.length_cons] at hk
      have hk17 : k ≤ 17 := by omega
      have hpow : 10 ^ k ≤ 10 ^ 17 := Nat.pow_le_pow_right (by norm_num) hk17
      have hpow17 : (10 : Nat) ^ 17 = 100000000000000000 := by norm_num
      have hsucc : (10 : Nat) ^ (k + 1) = 10 ^ k * 10 := pow_succ 10 k
      have h1 : ¬ n ≥ (2 ^ 64 - 1) / 10 + 1 := by
        norm_num
        omega
      have h2 : (n * 10) % 2 ^ 64 = n * 10 := by
        norm_num
        omega
      have h3 : (n * 10 + (c - 48)) % 2 ^ 64 = n * 10 + (c - 48) := by
        norm_num
        omega
      have h4 : ¬ (n * 10 + (c - 48) < n * 10 ∨ n * 10 + (c - 48) > 2 ^ 64 - 1) := by
        norm_num
        omega
      simp only [parseUintLoop, hc, and_self, if_true, h1, if_false, h2, h3, h4]
      exact ih (n * 10 + (c - 48)) (k + 1) hr (by omega) (by omega)
    · simp only [parseUintLoop, hc, if_false]

/-- The last step of `ParseInt` on a value within the range. -/
theorem parseInt_finish (c un : Nat) (h1 : c = 45 → un ≤ 2 ^ 63) (h2 : c ≠ 45 → un < 2 ^ 63) :
    (if c ≠ 45 ∧ un ≥ 2 ^ 63 then ((2 : Int) ^ 63 - 1, some NumError.ErrRange)
      else if c = 45 ∧ un > 2 ^ 63 then (-(2 : Int) ^ 63, some NumError.ErrRange)
      else (if c = 45 then -(un : Int) else (un : Int), none)) =
    (if c = 45 then -(un : Int) else (un : Int), none) := by
  have hA : ¬ (c ≠ 45 ∧ un ≥ 2 ^ 63) := by
    rintro ⟨ha, hb⟩
    have := h2 ha
    omega
  have hB : ¬ (c = 45 ∧ un > 2 ^ 63) := by
    rintro ⟨ha, hb⟩
    have := h1 ha
    omega
  rw [if_neg hA, if_neg hB]

/-- `Atoi` on a decimal numeral in the range of `int`: its value, no
error. -/
theorem Atoi_numeral (f : GoString) (hnum : isNumeral f = true)
    (hlo : -(2 : Int) ^ 63 ≤ numeralValue f) (hhi : numeralValue f < (2 : Int) ^ 63) :
    Atoi f = (numeralValue f, none) := by
  cases f with
  | nil => simp [isNumeral] at hnum
  | cons c rest =>
    by_cases hsign : c = 43 ∨ c = 45
    · -- a sign, then digits
      have hsign2 : c = 45 ∨ c = 43 := hsign.symm
      simp only [isNumeral, hsign, if_true, Bool.and_eq_true, Bool.not_eq_true',
        List.isEmpty_eq_false] at hnum
      obtain ⟨hne, hdig⟩ := hnum
      have hlen : ¬ rest.length < 1 := by
        cases rest with
        | nil => exact absurd rfl hne
        | cons d ds => simp
      have hval : numeralValue (c :: rest) =
          (if c = 45 then -(decimalValue rest : Int) else (decimalValue rest : Int)) := by
        rcases hsign with h43 | h45
        · have hn : (43 : Nat) ≠ 45 := by decide
          simp [numeralValue, h43]
        · simp [numeralValue, h45]
      rw [hval] at hlo hhi ⊢
      have hb1 : c = 45 → decimalValue rest ≤ 2 ^ 63 := by
        intro h45
        rw [if_pos h45] at hlo
        norm_num at hlo ⊢
        omega
      have hb2 : c ≠ 45 → decimalValue rest < 2 ^ 63 := by
        intro h45
        rw [if_neg h45] at hhi
        norm_num at hhi ⊢
        omega
      have hbound : decimalValue rest < 2 ^ 64 := by
        by_cases h45 : c = 45
        · have := hb1 h45
          norm_num at this ⊢
          omega
        · have := hb2 h45
          norm_num at this ⊢
          omega
      by_cases hfast : 0 < (c :: rest).length ∧ (c :: rest).length < 19
      · simp only [Atoi, hfast, and_self, if_true, hsign2, hlen, if_false,
          atoiFastLoop_digits rest 0 hdig]
        rfl
      · have hpu : ParseUint rest = (decimalValue rest, none) := by
          simp only [ParseUint, hne, if_false]
          exact parseUintLoop_digits rest 0 hdig hbound
        simp only [Atoi, hfast, if_false, ParseInt, hsign, if_true, hpu]
        exact parseInt_finish c (decimalValue rest) hb1 hb2
    · -- digits only
      have hsign2 : ¬ (c = 45 ∨ c = 43) := fun h => hsign h.symm
      have h45 : ¬ c = 45 := fun h => hsign (Or.inr h)
      have h43 : ¬ c = 43 := fun h => hsign (Or.inl h)
      simp only [isNumeral, hsign, if_false] at hnum
      have hval : numeralValue (c :: rest) =
          (if c = 45 then -(decimalValue (c :: rest) : Int) else (decimalValue (c :: rest) : Int)) := by
        simp [numeralValue, h45, h43]
      rw [hval] at hhi ⊢
      have hb1 : c = 45 → decimalValue (c :: rest) ≤ 2 ^ 63 := fun h => absurd h h45
      have hb2 : c ≠ 45 → decimalValue (c :: rest) < 2 ^ 63 := by
        intro _
        rw [if_neg h45] at hhi
        norm_num at hhi ⊢
        omega
      have hbound : decimalValue (c :: rest) < 2 ^ 64 := by
        have := hb2 h45
        norm_num at this ⊢
        omega
      have hlen : ¬ (c :: rest).length < 1 := by simp
      by_cases hfast : 0 < (c :: rest).length ∧ (c :: rest).length < 19
      · simp only [Atoi, hfast, and_self, if_true, hsign2, hlen, if_false,
          atoiFastLoop_digits (c :: rest) 0 hnum]
        rfl
      · have hpu : ParseUint (c :: rest) = (decimalValue (c :: rest), none) := by
          simp only [ParseUint, reduceCtorEq, if_false]
          exact parseUintLoop_digits (c :: rest) 0 hnum hbound
        simp only [Atoi, hfast, if_false, ParseInt, hsign, hpu]
        exact parseInt_finish c (decimalValue (c :: rest)) hb1 hb2

/-- `Atoi` on a string of at most 19 bytes that is no decimal numeral: 0
and a syntax error. -/
theorem Atoi_not_numeral (f : GoString) (hnum : isNumeral f = false) (hlen : f.length ≤ 19) :
    Atoi f = (0, some NumError.ErrSyntax) := by
  cases f with
  | nil => simp [Atoi, ParseInt]
  | cons c rest =>
    by_cases hsign : c = 43 ∨ c = 45
    · have hsign2 : c = 45 ∨ c = 43 := hsign.symm
      simp only [isNumeral, hsign, if_true, Bool.and_eq_false_iff, Bool.not_eq_false',
        List.isEmpty_iff] at hnum
      by_cases hfast : 0 < (c :: rest).length ∧ (c :: rest).length < 19
      · simp only [Atoi, hfast, and_self, if_true, hsign2]
        rcases hnum with h0 | hnd
        · simp [h0]
        · simp only [atoiFastLoop_not_digits rest 0 hnd]
          split_ifs <;> rfl
      · simp only [Atoi, hfast, if_false, ParseInt, hsign, if_true]
        rcases hnum with h0 | hnd
        · simp [h0, ParseUint]
        · have hne : rest ≠ [] := by
            rintro rfl
            simp at hnd
          have hk : 0 + rest.length ≤ 19 := by
            simp only [List.length_cons] at hlen
            omega
          simp only [ParseUint, hne, if_false,
            parseUintLoop_not_digits rest 0 0 hnd (by norm_num) hk]
    · have hsign2 : ¬ (c = 45 ∨ c = 43) := fun h => hsign h.symm
      simp only [isNumeral, hsign, if_false] at hnum
      have hl1 : ¬ (c :: rest).length < 1 := by simp
      by_cases hfast : 0 < (c :: rest).length ∧ (c :: rest).length < 19
      · simp only [Atoi, hfast, and_self, if_true, hsign2, if_false, hl1,
          atoiFastLoop_not_digits (c :: rest) 0 hnum]
      · simp only [Atoi, hfast, if_false, ParseInt, hsign, ParseUint, reduceCtorEq,
          parseUintLoop_not_digits (c :: rest) 0 0 hnum (by norm_num) (by omega)]

/-- A syntax error of `ParseInt` comes with the value 0. -/
theorem ParseInt_syntax_zero (f : GoString) (h : (ParseInt f).2 = some NumError.ErrSyntax) :
    (ParseInt f).1 = 0 := by
  cases f with
  | nil => rfl
  | cons c rest =>
    simp only [ParseInt] at h ⊢
    generalize ParseUint (if c = 43 ∨ c = 45 then rest else c :: rest) = pu at h ⊢
    obtain ⟨un, e⟩ := pu
    cases e with
    | none =>
      simp only at h ⊢
      split_ifs at h <;> simp at h
    | some e =>
      cases e with
      | ErrSyntax => rfl
      | ErrRange =>
        simp only at h ⊢
        split_ifs at h <;> simp at h

/-- A syntax error of `Atoi` comes with the value 0. -/
theorem Atoi_syntax_zero (f : GoString) (h : (Atoi f).2 = some NumError.ErrSyntax) :
    (Atoi f).1 = 0 := by
  by_cases hfast : 0 < f.length ∧ f.length < 19
  · cases f with
    | nil => simp at hfast
    | cons c rest =>
      simp only [Atoi, hfast, and_self, if_true] at h ⊢
      generalize atoiFastLoop (if c = 45 ∨ c = 43 then rest else c :: rest) 0 = o at h ⊢
      cases o with
      | none => split_ifs <;> rfl
      | some n =>
        simp only at h ⊢
        split_ifs at h ⊢
        all_goals rfl
  · simp only [Atoi, hfast, if_false] at h ⊢
    exact ParseInt_syntax_zero f h

/-- The port kept for a field is as `PortOf` says. -/
theorem portOf_Atoi (field : GoString) : PortOf field (Atoi field).1 := by
  refine ⟨rfl, ?_, ?_, ?_⟩
  · intro hnum hlo hhi
    rw [Atoi_numeral field hnum hlo hhi]
  · intro hnum hlen
    rw [Atoi_not_numeral field hnum hlen]
  · exact Atoi_syntax_zero field

/-- C4 (as stated it fails): the line
`PROXY TCP4 10.0.0.1 10.0.0.2 99999999999999999999 80` has six fields, the
first is `PROXY`, and its fifth field fails to parse as an integer (`Atoi`
reports a range error), yet the port returned for it is 9223372036854775807
and not 0.  And the line `PROXY TCP4 10.0.0.1 10.0.0.2 1234 80\r\n`, as it
comes from the wire, splits at the blanks into six fields of which the last,
`80\r\n`, is no integer for `Atoi`, yet the port returned is 80: the line is
trimmed before it is split. -/
theorem parseProxyHeader_port_not_zero :
    (Split (str "PROXY TCP4 10.0.0.1 10.0.0.2 99999999999999999999 80") 32).length = 6 ∧
    (Split (str "PROXY TCP4 10.0.0.1 10.0.0.2 99999999999999999999 80") 32).head? =
      some (str "PROXY") ∧
    Atoi ((Split (str "PROXY TCP4 10.0.0.1 10.0.0.2 99999999999999999999 80") 32).getD 4 []) =
      (9223372036854775807, some NumError.ErrRange) ∧
    parseProxyHeader (str "PROXY TCP4 10.0.0.1 10.0.0.2 99999999999999999999 80") =
      Except.ok { SrcIP := str "10.0.0.1", SrcPort := 9223372036854775807,
                  DstIP := str "10.0.0.2", DstPort := 80 } ∧
    (Split (str "PROXY TCP4 10.0.0.1 10.0.0.2 1234 80\r\n") 32).getD 5 [] = str "80\r\n" ∧
    Atoi (str "80\r\n") = (0, some NumError.ErrSyntax) ∧
    parseProxyHeader (str "PROXY TCP4 10.0.0.1 10.0.0.2 1234 80\r\n") =
      Except.ok { SrcIP := str "10.0.0.1", SrcPort := 1234,
                  DstIP := str "10.0.0.2", DstPort := 80 } := by
  refine ⟨?_, ?_, ?_, ?_, ?_, ?_, ?_⟩ <;> decide

/-- C4 (amended): when the trimmed header splits at single blanks into at
least 6 fields of which the first is `PROXY`, `parseProxyHeader` succeeds
with `SrcIP` the third field, `DstIP` the fourth, and `SrcPort`, `DstPort` the
values `strconv.Atoi` returns for the fifth and the sixth: the integer the
field stands for when it is a decimal numeral in the range of `int`, and 0
when `Atoi` reports a syntax error, as for every field of at most 19 bytes
that is no decimal numeral. -/
theorem parseProxyHeader_fields (header : GoString)
    (hlen : 6 ≤ (Split (TrimSpace header) 32).length)
    (hfirst : (Split (TrimSpace header) 32).head? = some (str "PROXY")) :
    ∃ info, parseProxyHeader header = Except.ok info ∧
      info.SrcIP = (Split (TrimSpace header) 32).getD 2 [] ∧
      info.DstIP = (Split (TrimSpace header) 32).getD 3 [] ∧
      PortOf ((Split (TrimSpace header) 32).getD 4 []) info.SrcPort ∧
      PortOf ((Split (TrimSpace header) 32).getD 5 []) info.DstPort := by
  have hcond : ¬ ((Split (TrimSpace header) 32).length < 6 ∨
      (Split (TrimSpace header) 32).head? ≠ some (str "PROXY")) := by
    rintro (h | h)
    · omega
    · exact h hfirst
  refine ⟨{ SrcIP := (Split (TrimSpace header) 32).getD 2 []
            SrcPort := (Atoi ((Split (TrimSpace header) 32).getD 4 [])).1
            DstIP := (Split (TrimSpace header) 32).getD 3 []
            DstPort := (Atoi ((Split (TrimSpace header) 32).getD 5 [])).1 },
    ?_, rfl, rfl, portOf_Atoi _, portOf_Atoi _⟩
  unfold parseProxyHeader
  simp only [hcond, if_false]

/-- C4, at a concrete header: `PROXY TCP4 10.0.0.1 10.0.0.2 1234 http` with
its line end:
the addresses, the port 1234 and, for the field `http`, the port 0. -/
theorem parseProxyHeader_fields_witness :
    ∃ info, parseProxyHeader (str "PROXY TCP4 10.0.0.1 10.0.0.2 1234 http\r\n") = Except.ok info ∧
      info.SrcIP = (Split (TrimSpace (str "PROXY TCP4 10.0.0.1 10.0.0.2 1234 http\r\n")) 32).getD 2 [] ∧
      info.DstIP = (Split (TrimSpace (str "PROXY TCP4 10.0.0.1 10.0.0.2 1234 http\r\n")) 32).getD 3 [] ∧
      PortOf ((Split (TrimSpace (str "PROXY TCP4 10.0.0.1 10.0.0.2 1234 http\r\n")) 32).getD 4 [])
        info.SrcPort ∧
      PortOf ((Split (TrimSpace (str "PROXY TCP4 10.0.0.1 10.0.0.2 1234 http\r\n")) 32).getD 5 [])
        info.DstPort :=
  parseProxyHeader_fields (str "PROXY TCP4 10.0.0.1 10.0.0.2 1234 http\r\n") (by decide) (by decide)

/-! ## C2: decoding and encoding again -/

/-- The decimal text is made of digits. -/
theorem decimalLoop_digits (fuel n : Nat) (acc : GoString) (h : acc.all isDigit = true) :
    (decimalLoop fuel n acc).all isDigit = true := by
  induction fuel generalizing n acc with
  | zero =>
    have hd : isDigit (48 + n % 10) = true := by
      simp only [isDigit, decide_eq_true_eq]
      omega
    simp [decimalLoop, hd, h]
  | succ f ih =>
    simp only [decimalLoop]
    split_ifs with hlt
    · have hd : isDigit (48 + n) = true := by
        simp only [isDigit, decide_eq_true_eq]
        omega
      simp [hd, h]
    · apply ih
      have hd : isDigit (48 + n % 10) = true := by
        simp only [isDigit, decide_eq_true_eq]
        omega
      simp [hd, h]

/-- The decimal text is not empty. -/
theorem decimalLoop_ne_nil (fuel n : Nat) (acc : GoString) : decimalLoop fuel n acc ≠ [] := by
  induction fuel generalizing n acc with
  | zero => simp [decimalLoop]
  | succ f ih =>
    simp only [decimalLoop]
    split_ifs
    · simp
    · exact ih _ _

/-- The decimal text read back gives the number. -/
theorem decimalLoop_value (fuel n : Nat) (acc : GoString) (h : n ≤ fuel) :
    digitsValue 0 (decimalLoop fuel n acc) = digitsValue n acc := by
  induction fuel generalizing n acc with
  | zero =>
    have h0 : n = 0 := by omega
    subst h0
    simp [decimalLoop, digitsValue]
  | succ f ih =>
    simp only [decimalLoop]
    split_ifs with hlt
    · simp [digitsValue]
    · rw [ih (n / 10) _ (by omega)]
      simp only [digitsValue, List.foldl_cons]
      congr 1
      omega

/-- The text of a number is made of digits. -/
theorem formatNat_digits (n : Nat) : (formatNat n).all isDigit = true :=
  decimalLoop_digits n n [] rfl

/-- The text of a number is not empty. -/
theorem formatNat_ne_nil (n : Nat) : formatNat n ≠ [] := decimalLoop_ne_nil n n []

/-- The text of a number read back gives the number. -/
theorem decimalValue_formatNat (n : Nat) : decimalValue (formatNat n) = n := by
  simp only [decimalValue, formatNat]
  rw [decimalLoop_value n n [] (le_refl n)]
  simp [digitsValue]

/-- The text of a number is a decimal numeral, and its value is the
number. -/
theorem formatNat_numeral (n : Nat) :
    isNumeral (formatNat n) = true ∧ numeralValue (formatNat n) = (n : Int) := by
  have hd := formatNat_digits n
  have hv := decimalValue_formatNat n
  cases hf : formatNat n with
  | nil => exact absurd hf (formatNat_ne_nil n)
  | cons c rest =>
    rw [hf] at hd hv
    have hc : 48 ≤ c ∧ c ≤ 57 := by
      simp only [List.all_cons, Bool.and_eq_true] at hd
      simpa [isDigit] using hd.1
    have h45 : ¬ c = 45 := by omega
    have h43 : ¬ c = 43 := by omega
    have hs : ¬ (c = 43 ∨ c = 45) := by omega
    constructor
    · simp only [isNumeral, hs, if_false]
      exact hd
    · simp only [numeralValue, h45, h43, if_false, hv]

/-- `Atoi` reads the text of a number below `2 ^ 63` back. -/
theorem Atoi_formatNat (p : Nat) (hp : p < 2 ^ 63) : Atoi (formatNat p) = ((p : Int), none) := by
  obtain ⟨h1, h2⟩ := formatNat_numeral p
  have h := Atoi_numeral (formatNat p) h1 (by rw [h2]; norm_num; omega)
    (by rw [h2]; norm_num at hp ⊢; omega)
  rw [h, h2]

/-- `Atoi` reads the text of an integer in the range of `int` back. -/
theorem Atoi_formatInt (i : Int) (hlo : -(2 : Int) ^ 63 ≤ i) (hhi : i < (2 : Int) ^ 63) :
    Atoi (formatInt i) = (i, none) ∧ isNumeral (formatInt i) = true := by
  by_cases hneg : i < 0
  · have hf : formatInt i = 45 :: formatNat i.natAbs := by simp [formatInt, hneg]
    have hnum : isNumeral (45 :: formatNat i.natAbs) = true := by
      have hne := formatNat_ne_nil i.natAbs
      simp only [isNumeral, or_true, if_true, Bool.and_eq_true, Bool.not_eq_true',
        List.isEmpty_eq_false]
      exact ⟨hne, formatNat_digits _⟩
    have hval : numeralValue (45 :: formatNat i.natAbs) = i := by
      simp only [numeralValue, if_true, decimalValue_formatNat]
      omega
    rw [hf]
    refine ⟨?_, hnum⟩
    have h := Atoi_numeral (45 :: formatNat i.natAbs) hnum (by rw [hval]; exact hlo)
      (by rw [hval]; exact hhi)
    rw [h, hval]
  · have hf : formatInt i = formatNat i.natAbs := by simp [formatInt, hneg]
    have hp : i.natAbs < 2 ^ 63 := by
      norm_num at hhi ⊢
      omega
    have hi : ((i.natAbs : Nat) : Int) = i := by omega
    rw [hf, Atoi_formatNat _ hp, hi]
    exact ⟨rfl, (formatNat_numeral _).1⟩

/-- What the round trip writes for a port field. -/
theorem formatInt_Atoi_port (f : GoString) (h : PortField f) :
    formatInt (Atoi f).1 = reencodedPort f := by
  rcases h with ⟨i, hlo, hhi, rfl⟩ | ⟨hn, hl⟩
  · obtain ⟨h1, h2⟩ := Atoi_formatInt i hlo hhi
    simp only [h1, reencodedPort, h2, if_true]
  · rw [Atoi_not_numeral f hn hl]
    simp only [reencodedPort, hn, Bool.false_eq_true, if_false]
    decide

/-- One digit in the loop of `parseIPv4Fields`. -/
theorem parseIPv4Loop_digit (c : Nat) (rest : GoString) (first : Bool)
    (prev val pos digLen : Nat) (fields : List Nat) (hc : 48 ≤ c ∧ c ≤ 57)
    (hz : ¬ (digLen = 1 ∧ val = 0)) (hbig : ¬ val * 10 + (c - 48) > 255) :
    parseIPv4Loop (c :: rest) first prev val pos digLen fields =
      parseIPv4Loop rest false c (val * 10 + (c - 48)) pos (digLen + 1) fields := by
  simp only [parseIPv4Loop, hc, and_self, if_true, hz, if_false, hbig]

/-- One digit in `octetScan`. -/
theorem octetScan_digit (c : Nat) (rest : GoString) (val digLen : Nat)
    (hz : ¬ (digLen = 1 ∧ val = 0)) (hbig : ¬ val * 10 + (c - 48) > 255) :
    octetScan (c :: rest) val digLen = octetScan rest (val * 10 + (c - 48)) (digLen + 1) := by
  simp only [octetScan, hz, if_false, hbig]

/-- The loop of `parseIPv4Fields` over the digits of one octet. -/
theorem parseIPv4Loop_digits (ds : GoString) (hds : ds.all isDigit = true) (hne : ds ≠ [])
    (rest : GoString) (pos : Nat) (fields : List Nat) (first : Bool) (prev val digLen : Nat) :
    ∃ last, isDigit last = true ∧
      parseIPv4Loop (ds ++ rest) first prev val pos digLen fields =
        match octetScan ds val digLen with
        | none => none
        | some (v, n) => parseIPv4Loop rest false last v pos n fields := by
  induction ds generalizing first prev val digLen with
  | nil => exact absurd rfl hne
  | cons c ds ih =>
    simp only [List.all_cons, Bool.and_eq_true] at hds
    have hc : 48 ≤ c ∧ c ≤ 57 := by simpa [isDigit] using hds.1
    by_cases hz : digLen = 1 ∧ val = 0
    · exact ⟨c, hds.1, by simp [parseIPv4Loop, octetScan, hc, hz]⟩
    · by_cases hbig : val * 10 + (c - 48) > 255
      · exact ⟨c, hds.1, by simp [parseIPv4Loop, octetScan, hc, hz, hbig]⟩
      · rw [List.cons_append, parseIPv4Loop_digit c _ first prev val pos digLen fields hc hz hbig,
          octetScan_digit c ds val digLen hz hbig]
        cases ds with
        | nil => exact ⟨c, hds.1, by simp [octetScan]⟩
        | cons d ds2 =>
          exact ih hds.2 (by simp) false c (val * 10 + (c - 48)) (digLen + 1)

/-- The digits of an octet give the octet. -/
theorem octetScan_formatNat (a : Nat) (ha : a < 256) :
    ∃ n, octetScan (formatNat a) 0 0 = some (a, n) := by
  have key : ∀ b < 256, (octetScan (formatNat b) 0 0).map Prod.fst = some b := by
    set_option maxRecDepth 100000 in decide
  have h := key a ha
  cases ho : octetScan (formatNat a) 0 0 with
  | none => simp [ho] at h
  | some r =>
    obtain ⟨v, n⟩ := r
    simp only [ho, Option.map_some', Option.some.injEq] at h
    exact ⟨n, by rw [← h]⟩

/-- A dot after an octet, in the loop of `parseIPv4Fields`. -/
theorem parseIPv4Loop_dot (rest : GoString) (hrest : rest ≠ []) (last val pos digLen : Nat)
    (fields : List Nat) (hl : isDigit last = true) (hpos : pos < 3) :
    parseIPv4Loop (46 :: rest) false last val pos digLen fields =
      parseIPv4Loop rest false 46 0 (pos + 1) 0 (fields ++ [val]) := by
  have hlast : 48 ≤ last ∧ last ≤ 57 := by simpa [isDigit] using hl
  have h1 : ¬ (48 ≤ 46 ∧ 46 ≤ 57) := by omega
  have h2 : ¬ (false = true ∨ rest = [] ∨ last = 46) := by
    rintro (h | h | h)
    · exact Bool.false_ne_true h
    · exact hrest h
    · omega
  have h3 : ¬ pos = 3 := by omega
  simp only [parseIPv4Loop, h1, if_false, if_true, h2, h3]

/-- `parseIPv4Fields` reads the dotted-decimal text of four octets back. -/
theorem parseIPv4Fields_string4 (a b c d : Nat) (ha : a < 256) (hb : b < 256) (hc : c < 256)
    (hd : d < 256) : parseIPv4Fields (string4 [a, b, c, d]) = some [a, b, c, d] := by
  obtain ⟨na, hsa⟩ := octetScan_formatNat a ha
  obtain ⟨nb, hsb⟩ := octetScan_formatNat b hb
  obtain ⟨nc, hsc⟩ := octetScan_formatNat c hc
  obtain ⟨nd, hsd⟩ := octetScan_formatNat d hd
  have hs : string4 [a, b, c, d] =
      formatNat a ++ (46 :: (formatNat b ++ (46 :: (formatNat c ++ (46 :: (formatNat d ++ [])))))) := by
    simp [string4]
  have nb0 : ∀ (n : Nat) (r : GoString), formatNat n ++ r ≠ [] := by
    intro n r h
    exact formatNat_ne_nil n (List.append_eq_nil.mp h).1
  rw [hs, parseIPv4Fields]
  obtain ⟨l1, hl1, e1⟩ := parseIPv4Loop_digits (formatNat a) (formatNat_digits a)
    (formatNat_ne_nil a) (46 :: (formatNat b ++ (46 :: (formatNat c ++ (46 :: (formatNat d ++ []))))))
    0 [] true 0 0 0
  rw [e1, hsa]
  simp only
  rw [parseIPv4Loop_dot _ (nb0 _ _) l1 a 0 na [] hl1 (by norm_num)]
  obtain ⟨l2, hl2, e2⟩ := parseIPv4Loop_digits (formatNat b) (formatNat_digits b)
    (formatNat_ne_nil b) (46 :: (formatNat c ++ (46 :: (formatNat d ++ []))))
    (0 + 1) ([] ++ [a]) false 46 0 0
  rw [e2, hsb]
  simp only
  rw [parseIPv4Loop_dot _ (nb0 _ _) l2 b (0 + 1) nb _ hl2 (by norm_num)]
  obtain ⟨l3, hl3, e3⟩ := parseIPv4Loop_digits (formatNat c) (formatNat_digits c)
    (formatNat_ne_nil c) (46 :: (formatNat d ++ []))
    (0 + 1 + 1) ([] ++ [a] ++ [b]) false 46 0 0
  rw [e3, hsc]
  simp only
  rw [parseIPv4Loop_dot _ (nb0 _ _) l3 c (0 + 1 + 1) nc _ hl3 (by norm_num)]
  obtain ⟨l4, hl4, e4⟩ := parseIPv4Loop_digits (formatNat d) (formatNat_digits d)
    (formatNat_ne_nil d) [] (0 + 1 + 1 + 1) ([] ++ [a] ++ [b] ++ [c]) false 46 0 0
  rw [e4, hsd]
  simp [parseIPv4Loop]

/-- The scan of `netip.ParseAddr` meets a dot first. -/
theorem parseAddr16_dot (s pre rest : GoString) (hpre : pre.all isDigit = true) :
    parseAddr16 s (pre ++ 46 :: rest) =
      (parseIPv4Fields s).map (fun f => List.replicate 10 0 ++ [0xff, 0xff] ++ f) := by
  induction pre with
  | nil => simp [parseAddr16]
  | cons c pre ih =>
    simp only [List.all_cons, Bool.and_eq_true] at hpre
    have hc : 48 ≤ c ∧ c ≤ 57 := by simpa [isDigit] using hpre.1
    have h1 : ¬ c = 46 := by omega
    have h2 : ¬ c = 58 := by omega
    have h3 : ¬ c = 37 := by omega
    simp only [List.cons_append, parseAddr16, h1, h2, h3, if_false]
    exact ih hpre.2

/-- `net.ParseIP` on the dotted-decimal text of four octets. -/
theorem ParseIP_string4 (a b c d : Nat) (ha : a < 256) (hb : b < 256) (hc : c < 256)
    (hd : d < 256) :
    ParseIP (string4 [a, b, c, d]) = [0, 0, 0, 0, 0, 0, 0, 0, 0, 0, 255, 255, a, b, c, d] := by
  have hs : string4 [a, b, c, d] =
      formatNat a ++ 46 :: (formatNat b ++ [46] ++ formatNat c ++ [46] ++ formatNat d) := by
    simp [string4]
  have h := parseAddr16_dot (string4 [a, b, c, d]) (formatNat a)
    (formatNat b ++ [46] ++ formatNat c ++ [46] ++ formatNat d) (formatNat_digits a)
  rw [← hs, parseIPv4Fields_string4 a b c d ha hb hc hd] at h
  simp only [ParseIP, h]
  rfl

/-- The text of the 16-byte form of an IPv4 address, and its family. -/
theorem IPString_v4 (a b c d : Nat) :
    To4 [0, 0, 0, 0, 0, 0, 0, 0, 0, 0, 255, 255, a, b, c, d] = some [a, b, c, d] ∧
    IPString [0, 0, 0, 0, 0, 0, 0, 0, 0, 0, 255, 255, a, b, c, d] = string4 [a, b, c, d] := by
  have h4 : To4 [0, 0, 0, 0, 0, 0, 0, 0, 0, 0, 255, 255, a, b, c, d] = some [a, b, c, d] := by
    simp [To4]
  refine ⟨h4, ?_⟩
  simp [IPString, h4]

/-- A hexadecimal digit is read back. -/
theorem hexValue_hexDigit (d : Nat) (hd : d < 16) :
    hexValue (hexDigit d) = some d ∧ hexDigit d ≠ 58 ∧ hexDigit d ≠ 46 ∧ hexDigit d ≠ 37 := by
  interval_cases d <;> decide

/-- One hexadecimal digit in the loop of `parseIPv6`. -/
theorem hexGroupLoop_digit (d : Nat) (hd : d < 16) (rest : GoString) (off acc : Nat)
    (hoff : off ≤ 3) (hacc : acc * 16 + d ≤ 0xFFFF) :
    hexGroupLoop (hexDigit d :: rest) off acc = hexGroupLoop rest (off + 1) (acc * 16 + d) := by
  have h1 : ¬ off > 3 := by omega
  have h2 : ¬ acc * 16 + d > 0xFFFF := by omega
  simp only [hexGroupLoop, (hexValue_hexDigit d hd).1, h1, if_false, h2]

/-- The hexadecimal loop stops at the end and at a colon. -/
theorem hexGroupLoop_stop (rest : GoString) (hrest : rest = [] ∨ ∃ r, rest = 58 :: r)
    (off acc : Nat) : hexGroupLoop rest off acc = some (off, acc, rest) := by
  rcases hrest with rfl | ⟨r, rfl⟩
  · rfl
  · have : hexValue 58 = none := by decide
    simp only [hexGroupLoop, this]

/-- The hexadecimal loop reads a printed group back. -/
theorem hexGroupLoop_appendHex (x : Nat) (hx : x < 65536) (rest : GoString)
    (hrest : rest = [] ∨ ∃ r, rest = 58 :: r) :
    ∃ off, off ≠ 0 ∧ hexGroupLoop (appendHex x ++ rest) 0 0 = some (off, x, rest) := by
  have d0 : x % 16 < 16 := Nat.mod_lt _ (by norm_num)
  have d1 : x / 0x10 % 16 < 16 := Nat.mod_lt _ (by norm_num)
  have d2 : x / 0x100 % 16 < 16 := Nat.mod_lt _ (by norm_num)
  have d3 : x / 0x1000 % 16 < 16 := Nat.mod_lt _ (by norm_num)
  by_cases h3 : x ≥ 0x1000
  · have h2 : x ≥ 0x100 := by omega
    have h1 : x ≥ 0x10 := by omega
    refine ⟨4, by norm_num, ?_⟩
    simp only [appendHex, h3, h2, h1, if_true, List.cons_append, List.nil_append,
      List.append_assoc]
    rw [hexGroupLoop_digit _ d3 _ 0 0 (by norm_num) (by omega),
      hexGroupLoop_digit _ d2 _ _ _ (by norm_num) (by omega),
      hexGroupLoop_digit _ d1 _ _ _ (by norm_num) (by omega),
      hexGroupLoop_digit _ d0 _ _ _ (by norm_num) (by omega),
      hexGroupLoop_stop rest hrest]
    congr 3
    omega
  · by_cases h2 : x ≥ 0x100
    · have h1 : x ≥ 0x10 := by omega
      refine ⟨3, by norm_num, ?_⟩
      simp only [appendHex, h3, h2, h1, if_true, if_false, List.cons_append, List.nil_append,
        List.append_assoc]
      rw [hexGroupLoop_digit _ d2 _ 0 0 (by norm_num) (by omega),
        hexGroupLoop_digit _ d1 _ _ _ (by norm_num) (by omega),
        hexGroupLoop_digit _ d0 _ _ _ (by norm_num) (by omega),
        hexGroupLoop_stop rest hrest]
      congr 3
      omega
    · by_cases h1 : x ≥ 0x10
      · refine ⟨2, by norm_num, ?_⟩
        simp only [appendHex, h3, h2, h1, if_true, if_false, List.cons_append, List.nil_append,
          List.append_assoc]
        rw [hexGroupLoop_digit _ d1 _ 0 0 (by norm_num) (by omega),
          hexGroupLoop_digit _ d0 _ _ _ (by norm_num) (by omega),
          hexGroupLoop_stop rest hrest]
        congr 3
        omega
      · refine ⟨1, by norm_num, ?_⟩
        simp only [appendHex, h3, h2, h1, if_false, List.cons_append, List.nil_append]
        rw [hexGroupLoop_digit _ d0 _ 0 0 (by norm_num) (by omega),
          hexGroupLoop_stop rest hrest]
        congr 3
        omega

/-- A printed group starts with a hexadecimal digit. -/
theorem appendHex_cons (x : Nat) :
    ∃ d t, appendHex x = d :: t ∧ d ≠ 58 ∧ d ≠ 46 ∧ d ≠ 37 ∧
      ∀ c ∈ appendHex x, isV6Char c = true ∧ c ≠ 58 := by
  have d0 : x % 16 < 16 := Nat.mod_lt _ (by norm_num)
  have d1 : x / 0x10 % 16 < 16 := Nat.mod_lt _ (by norm_num)
  have d2 : x / 0x100 % 16 < 16 := Nat.mod_lt _ (by norm_num)
  have d3 : x / 0x1000 % 16 < 16 := Nat.mod_lt _ (by norm_num)
  have hv : ∀ d, d < 16 → isV6Char (hexDigit d) = true ∧ hexDigit d ≠ 58 := by
    intro d hd
    refine ⟨?_, (hexValue_hexDigit d hd).2.1⟩
    simp [isV6Char, (hexValue_hexDigit d hd).1]
  have hall : ∀ c ∈ appendHex x, isV6Char c = true ∧ c ≠ 58 := by
    intro c hc
    simp only [appendHex, List.mem_append, List.mem_singleton] at hc
    rcases hc with ((hc | hc) | hc) | hc
    · split_ifs at hc
      · rw [List.mem_singleton.mp hc]; exact hv _ d3
      · simp at hc
    · split_ifs at hc
      · rw [List.mem_singleton.mp hc]; exact hv _ d2
      · simp at hc
    · split_ifs at hc
      · rw [List.mem_singleton.mp hc]; exact hv _ d1
      · simp at hc
    · rw [hc]; exact hv _ d0
  cases hx : appendHex x with
  | nil =>
    have : appendHex x ≠ [] := by simp [appendHex]
    exact absurd hx this
  | cons d t =>
    have hd : d ∈ appendHex x := by rw [hx]; exact List.mem_cons_self _ _
    obtain ⟨hd1, hd2⟩ := hall d hd
    have hd3 : d ≠ 46 ∧ d ≠ 37 := by
      constructor
      · rintro rfl
        revert hd1
        decide
      · rintro rfl
        revert hd1
        decide
    refine ⟨d, t, rfl, hd2, hd3.1, hd3.2, ?_⟩
    rw [← hx]
    exact hall

/-- The loop of `parseIPv6` on the last group of a text. -/
theorem parseIPv6Loop_last (x : Nat) (hx : x < 65536) (fuel : Nat) (ip : List Nat)
    (ell : Option Nat) (hip : ip.length < 16) :
    parseIPv6Loop (fuel + 1) (appendHex x) ip ell = some ([], ip ++ [x / 256, x % 256], ell) := by
  obtain ⟨off, hoff, h⟩ := hexGroupLoop_appendHex x hx [] (Or.inl rfl)
  rw [List.append_nil] at h
  have h1 : ¬ ip.length ≥ 16 := by omega
  simp only [parseIPv6Loop, h1, if_false, h, hoff, List.head?_nil, reduceCtorEq]

/-- The loop of `parseIPv6` on a group followed by a colon and one more
group. -/
theorem parseIPv6Loop_colon (x : Nat) (hx : x < 65536) (fuel : Nat) (ip : List Nat)
    (ell : Option Nat) (hip : ip.length < 16) (d : Nat) (t : GoString) (hd : d ≠ 58) :
    parseIPv6Loop (fuel + 1) (appendHex x ++ 58 :: d :: t) ip ell =
      parseIPv6Loop fuel (d :: t) (ip ++ [x / 256, x % 256]) ell := by
  obtain ⟨off, hoff, h⟩ := hexGroupLoop_appendHex x hx (58 :: d :: t) (Or.inr ⟨_, rfl⟩)
  have h1 : ¬ ip.length ≥ 16 := by omega
  have h2 : ¬ ((58 : Nat) = 46) := by decide
  simp only [parseIPv6Loop, h1, if_false, h, hoff, List.head?_cons, Option.some.injEq, h2,
    ne_eq, not_true_eq_false, hd]

/-- The loop of `parseIPv6` on a group followed by `::` at the end. -/
theorem parseIPv6Loop_ellipsis_end (x : Nat) (hx : x < 65536) (fuel : Nat) (ip : List Nat)
    (hip : ip.length < 16) :
    parseIPv6Loop (fuel + 1) (appendHex x ++ [58, 58]) ip none =
      some ([], ip ++ [x / 256, x % 256], some (ip.length + 2)) := by
  obtain ⟨off, hoff, h⟩ := hexGroupLoop_appendHex x hx [58, 58] (Or.inr ⟨_, rfl⟩)
  have h1 : ¬ ip.length ≥ 16 := by omega
  have h2 : ¬ ((58 : Nat) = 46) := by decide
  simp [parseIPv6Loop, h1, h, hoff, h2]

/-- The loop of `parseIPv6` on a group followed by `::` and more. -/
theorem parseIPv6Loop_ellipsis (x : Nat) (hx : x < 65536) (fuel : Nat) (ip : List Nat)
    (hip : ip.length < 16) (d : Nat) (t : GoString) :
    parseIPv6Loop (fuel + 1) (appendHex x ++ 58 :: 58 :: d :: t) ip none =
      parseIPv6Loop fuel (d :: t) (ip ++ [x / 256, x % 256]) (some (ip.length + 2)) := by
  obtain ⟨off, hoff, h⟩ := hexGroupLoop_appendHex x hx (58 :: 58 :: d :: t) (Or.inr ⟨_, rfl⟩)
  have h1 : ¬ ip.length ≥ 16 := by omega
  have h2 : ¬ ((58 : Nat) = 46) := by decide
  simp [parseIPv6Loop, h1, h, hoff, h2]

/-- A text of groups starts with a hexadecimal digit. -/
theorem joinGroups_cons (x : Nat) (gs : List Nat) :
    ∃ d t, joinGroups (x :: gs) = d :: t ∧ d ≠ 58 ∧ d ≠ 46 ∧ d ≠ 37 := by
  obtain ⟨d, t, h, h1, h2, h3, _⟩ := appendHex_cons x
  cases gs with
  | nil => exact ⟨d, t, by simp [joinGroups, h], h1, h2, h3⟩
  | cons y gs => exact ⟨d, t ++ 58 :: joinGroups (y :: gs), by simp [joinGroups, h], h1, h2, h3⟩

/-- The loop of `parseIPv6` reads a text of groups back. -/
theorem parseIPv6Loop_join (gs : List Nat) (x : Nat) (hall : ∀ y ∈ x :: gs, y < 65536)
    (fuel : Nat) (ip : List Nat) (ell : Option Nat) (hfuel : gs.length < fuel)
    (hlen : ip.length + 2 * (gs.length + 1) ≤ 16) :
    parseIPv6Loop fuel (joinGroups (x :: gs)) ip ell =
      some ([], ip ++ groupBytes (x :: gs), ell) := by
  induction gs generalizing x ip fuel with
  | nil =>
    obtain ⟨f, rfl⟩ : ∃ f, fuel = f + 1 := ⟨fuel - 1, by omega⟩
    have hx := hall x (List.mem_cons_self _ _)
    simp only [List.length_nil] at hlen
    rw [joinGroups, parseIPv6Loop_last x hx f ip ell (by omega)]
    simp [groupBytes]
  | cons y gs ih =>
    obtain ⟨f, rfl⟩ : ∃ f, fuel = f + 1 := ⟨fuel - 1, by omega⟩
    have hx := hall x (List.mem_cons_self _ _)
    have hrest : ∀ z ∈ y :: gs, z < 65536 := fun z hz => hall z (List.mem_cons_of_mem _ hz)
    simp only [List.length_cons] at hlen hfuel
    obtain ⟨d, t, hdt, hd, _, _⟩ := joinGroups_cons y gs
    have hl2 : (ip ++ [x / 256, x % 256]).length + 2 * (gs.length + 1) ≤ 16 := by
      simp only [List.length_append, List.length_cons, List.length_nil]
      omega
    rw [joinGroups, hdt, parseIPv6Loop_colon x hx f ip ell (by omega) d t hd, ← hdt,
      ih y hrest f _ (by omega) hl2]
    simp [groupBytes]

/-- The loop of `parseIPv6` reads a text with `::` between two runs of groups
back. -/
theorem parseIPv6Loop_join_run (pre : List Nat) (x : Nat) (post : List Nat)
    (hpre : ∀ y ∈ x :: pre, y < 65536) (hpost : ∀ y ∈ post, y < 65536)
    (fuel : Nat) (ip : List Nat) (hfuel : pre.length + post.length + 1 < fuel)
    (hlen : ip.length + 2 * (pre.length + 1 + post.length) ≤ 16) :
    parseIPv6Loop fuel (joinGroups (x :: pre) ++ 58 :: 58 :: joinGroups post) ip none =
      some ([], ip ++ groupBytes (x :: pre) ++ groupBytes post,
        some (ip.length + 2 * (pre.length + 1))) := by
  induction pre generalizing x ip fuel with
  | nil =>
    obtain ⟨f, rfl⟩ : ∃ f, fuel = f + 1 := ⟨fuel - 1, by omega⟩
    have hx := hpre x (List.mem_cons_self _ _)
    simp only [List.length_nil] at hlen hfuel
    cases post with
    | nil =>
      rw [joinGroups, joinGroups, parseIPv6Loop_ellipsis_end x hx f ip (by omega)]
      simp [groupBytes]
    | cons p ps =>
      obtain ⟨d, t, hdt, hd, _, _⟩ := joinGroups_cons p ps
      simp only [List.length_cons] at hlen hfuel
      have hl2 : (ip ++ [x / 256, x % 256]).length + 2 * (ps.length + 1) ≤ 16 := by
        simp only [List.length_append, List.length_cons, List.length_nil]
        omega
      rw [joinGroups, hdt, parseIPv6Loop_ellipsis x hx f ip (by omega) d t, ← hdt,
        parseIPv6Loop_join ps p hpost f _ _ (by omega) hl2]
      simp [groupBytes]
  | cons y pre ih =>
    obtain ⟨f, rfl⟩ : ∃ f, fuel = f + 1 := ⟨fuel - 1, by omega⟩
    have hx := hpre x (List.mem_cons_self _ _)
    have hrest : ∀ z ∈ y :: pre, z < 65536 := fun z hz => hpre z (List.mem_cons_of_mem _ hz)
    simp only [List.length_cons] at hlen hfuel
    obtain ⟨d, t, hdt, hd, _, _⟩ := joinGroups_cons y pre
    have hshape : joinGroups (x :: y :: pre) ++ 58 :: 58 :: joinGroups post =
        appendHex x ++ 58 :: d :: (t ++ 58 :: 58 :: joinGroups post) := by
      rw [joinGroups, hdt]
      simp
    have hback : d :: (t ++ 58 :: 58 :: joinGroups post) =
        joinGroups (y :: pre) ++ 58 :: 58 :: joinGroups post := by
      rw [hdt]
      simp
    have hl2 : (ip ++ [x / 256, x % 256]).length + 2 * (pre.length + 1 + post.length) ≤ 16 := by
      simp only [List.length_append, List.length_cons, List.length_nil]
      omega
    rw [hshape, parseIPv6Loop_colon x hx f ip none (by omega) d _ hd, hback,
      ih y hrest f _ (by omega) hl2]
    simp only [groupBytes, List.flatMap_cons, List.length_append, List.length_cons,
      List.length_nil, List.append_assoc, Option.some.injEq, Prod.mk.injEq, true_and]
    omega

/-- The run of zero groups that `zeroRunEnd` finds. -/
theorem zeroRunEnd_spec (g : List Nat) (fuel j : Nat) :
    j ≤ zeroRunEnd g fuel j ∧ (zeroRunEnd g fuel j ≤ 8 ∨ zeroRunEnd g fuel j = j) ∧
      ∀ k, j ≤ k → k < zeroRunEnd g fuel j → g.getD k 1 = 0 := by
  induction fuel generalizing j with
  | zero =>
    have e : zeroRunEnd g 0 j = j := rfl
    rw [e]
    exact ⟨le_refl j, Or.inr rfl, fun k h1 h2 => by omega⟩
  | succ f ih =>
    have e : zeroRunEnd g (f + 1) j =
        if j < 8 ∧ g.getD j 1 = 0 then zeroRunEnd g f (j + 1) else j := rfl
    rw [e]
    split_ifs with hc
    · obtain ⟨h1, h2, h3⟩ := ih (j + 1)
      refine ⟨by omega, ?_, ?_⟩
      · rcases h2 with h2 | h2
        · exact Or.inl h2
        · left
          omega
      · intro k hk1 hk2
        by_cases hkj : k = j
        · rw [hkj]
          exact hc.2
        · exact h3 k (by omega) hk2
    · exact ⟨le_refl j, Or.inr rfl, fun k h1 h2 => by omega⟩

/-- The pair that the first loop of `appendTo6` returns: no run, or a run of
zero groups inside the address. -/
theorem zeroRunLoop_valid (g : List Nat) (fuel i : Nat) (z : Nat × Nat)
    (hz : z = (255, 255) ∨ (z.1 < z.2 ∧ z.2 ≤ 8 ∧ ∀ k, z.1 ≤ k → k < z.2 → g.getD k 1 = 0)) :
    zeroRunLoop g fuel i z = (255, 255) ∨
      ((zeroRunLoop g fuel i z).1 < (zeroRunLoop g fuel i z).2 ∧
        (zeroRunLoop g fuel i z).2 ≤ 8 ∧
        ∀ k, (zeroRunLoop g fuel i z).1 ≤ k → k < (zeroRunLoop g fuel i z).2 →
          g.getD k 1 = 0) := by
  induction fuel generalizing i z with
  | zero => exact hz
  | succ f ih =>
    simp only [zeroRunLoop]
    apply ih
    split_ifs with hc
    · obtain ⟨h1, h2, h3⟩ := zeroRunEnd_spec g 8 i
      right
      refine ⟨by simp only; omega, ?_, h3⟩
      simp only
      rcases h2 with h2 | h2
      · exact h2
      · omega
    · exact hz

/-- A list with a run of zeros from `zs` to `ze` is made of what is before
the run, the zeros, and what is after. -/
theorem split_zero_run (g : List Nat) (zs ze : Nat) (h1 : zs ≤ ze) (h2 : ze ≤ g.length)
    (hz : ∀ k, zs ≤ k → k < ze → g.getD k 1 = 0) :
    g = g.take zs ++ List.replicate (ze - zs) 0 ++ g.drop ze := by
  apply List.ext_getElem?
  intro n
  by_cases hn1 : n < zs
  · rw [List.append_assoc, List.getElem?_append_left (by simp; omega), List.getElem?_take]
    simp [hn1]
  · by_cases hn2 : n < ze
    · have hzero := hz n (by omega) hn2
      have hlt : n < g.length := by omega
      rw [List.getD_eq_getElem?_getD, List.getElem?_eq_getElem hlt] at hzero
      simp only [Option.getD_some] at hzero
      rw [List.getElem?_append_left (by simp; omega),
        List.getElem?_append_right (by simp; omega)]
      simp only [List.length_take]
      rw [List.getElem?_eq_getElem hlt, hzero, List.getElem?_replicate]
      have : n - min zs g.length < ze - zs := by omega
      simp [this]
    · rw [List.getElem?_append_right (by simp; omega)]
      simp only [List.length_append, List.length_take, List.length_replicate, List.getElem?_drop]
      congr 1
      omega

/-- The text `appendTo6` writes, by the run of zeros it has chosen. -/
theorem appendGroups_join (g0 g1 g2 g3 g4 g5 g6 g7 zs ze : Nat)
    (hz : (zs = 255 ∧ ze = 255) ∨ (zs < ze ∧ ze ≤ 8)) :
    appendGroups [g0, g1, g2, g3, g4, g5, g6, g7] zs ze 8 0 =
      if zs = 255 then joinGroups [g0, g1, g2, g3, g4, g5, g6, g7]
      else joinGroups ([g0, g1, g2, g3, g4, g5, g6, g7].take zs) ++ 58 :: 58 ::
        joinGroups ([g0, g1, g2, g3, g4, g5, g6, g7].drop ze) := by
  rcases hz with ⟨rfl, rfl⟩ | ⟨h1, h2⟩
  · simp [appendGroups, joinGroups]
  · have hzs : zs < 8 := by omega
    interval_cases zs <;> interval_cases ze <;>
      simp [appendGroups, joinGroups]

/-- A text of groups is made of colons and hexadecimal digits. -/
theorem joinGroups_chars (gs : List Nat) : ∀ c ∈ joinGroups gs, isV6Char c = true := by
  induction gs with
  | nil => simp [joinGroups]
  | cons x tl ih =>
    obtain ⟨_, _, _, _, _, _, hx⟩ := appendHex_cons x
    cases tl with
    | nil =>
      intro c hc
      exact (hx c (by simpa [joinGroups] using hc)).1
    | cons y r =>
      intro c hc
      simp only [joinGroups, List.mem_append, List.mem_cons] at hc
      rcases hc with hc | hc | hc
      · exact (hx c hc).1
      · rw [hc]
        decide
      · exact ih c hc

/-- The bytes of a list of groups: two for each group. -/
theorem groupBytes_length (gs : List Nat) : (groupBytes gs).length = 2 * gs.length := by
  induction gs with
  | nil => rfl
  | cons x tl ih =>
    simp only [groupBytes, List.flatMap_cons, List.length_append, List.length_cons,
      List.length_nil] at ih ⊢
    omega

/-- The bytes of two lists of groups, one after the other. -/
theorem groupBytes_append (a b : List Nat) :
    groupBytes (a ++ b) = groupBytes a ++ groupBytes b := by
  simp [groupBytes, List.flatMap_append]

/-- The bytes of groups that are all zero. -/
theorem groupBytes_replicate (n : Nat) :
    groupBytes (List.replicate n 0) = List.replicate (2 * n) 0 := by
  induction n with
  | zero => rfl
  | succ m ih =>
    have h2 : 2 * (m + 1) = 2 * m + 1 + 1 := by omega
    simp only [groupBytes, List.replicate_succ, List.flatMap_cons] at ih ⊢
    rw [ih, h2]
    simp [List.replicate_succ]

/-- In a text that has only colons and hexadecimal digits there is no `%`. -/
theorem no_percent (s : GoString) (h : ∀ c ∈ s, isV6Char c = true) : ¬ 37 ∈ s := by
  intro h37
  have := h 37 h37
  revert this
  decide

/-- `parseIPv6` reads eight groups back. -/
theorem parseIPv6_plain (x : Nat) (gs : List Nat) (hall : ∀ y ∈ x :: gs, y < 65536)
    (hlen : gs.length + 1 = 8) :
    parseIPv6 (joinGroups (x :: gs)) = some (groupBytes (x :: gs)) := by
  obtain ⟨d, t, hdt, hd, _, _⟩ := joinGroups_cons x gs
  have h37 := no_percent _ (joinGroups_chars (x :: gs))
  have hloop := parseIPv6Loop_join gs x hall 9 [] none (by omega) (by simp; omega)
  have hl : (groupBytes (x :: gs)).length = 16 := by
    rw [groupBytes_length]
    simp only [List.length_cons]
    omega
  have hlead : (List.take 2 (d :: t) == [58, 58]) = false := by
    cases t with
    | nil => simp
    | cons e t2 =>
      simp only [List.take_succ_cons, List.take_zero]
      rw [beq_eq_false_iff_ne]
      intro h
      simp only [List.cons.injEq] at h
      exact hd h.1
  simp only [List.nil_append] at hloop
  rw [hdt] at h37 hloop
  simp only [parseIPv6, hdt, h37, if_false, hlead, Bool.false_eq_true, false_and, hloop]
  simp [hl]

/-- `parseIPv6` reads a text that starts with `::` back. -/
theorem parseIPv6_lead (post : List Nat) (hall : ∀ y ∈ post, y < 65536)
    (hlen : post.length < 8) :
    parseIPv6 (58 :: 58 :: joinGroups post) =
      some (List.replicate (16 - 2 * post.length) 0 ++ groupBytes post) := by
  have h37 : ¬ 37 ∈ 58 :: 58 :: joinGroups post := by
    apply no_percent
    intro c hc
    simp only [List.mem_cons] at hc
    rcases hc with hc | hc | hc
    · rw [hc]; decide
    · rw [hc]; decide
    · exact joinGroups_chars post c hc
  cases post with
  | nil => simp [parseIPv6, joinGroups, groupBytes]
  | cons p ps =>
    obtain ⟨d, t, hdt, hd, _, _⟩ := joinGroups_cons p ps
    simp only [List.length_cons] at hlen
    have hloop := parseIPv6Loop_join ps p hall 9 [] (some 0) (by omega) (by simp; omega)
    have hl : (groupBytes (p :: ps)).length = 2 * (ps.length + 1) := by
      rw [groupBytes_length]
      simp
    have hl16 : (groupBytes (p :: ps)).length < 16 := by omega
    simp only [List.nil_append] at hloop
    rw [hdt] at h37 hloop
    simp only [parseIPv6, hdt, h37, if_false, List.take_succ_cons, List.take_zero, beq_self_eq_true,
      if_true, List.drop_succ_cons, List.drop_zero, true_and, reduceCtorEq, hloop]
    have h16 : 2 * (ps.length + 1) < 16 := by omega
    simp only [ne_eq, not_true_eq_false, if_false, List.nil_append, hl, List.length_cons, h16,
      if_true]

/-- `parseIPv6` reads a text with `::` after some groups back. -/
theorem parseIPv6_run (x : Nat) (pre post : List Nat) (hpre : ∀ y ∈ x :: pre, y < 65536)
    (hpost : ∀ y ∈ post, y < 65536) (hlen : pre.length + 1 + post.length < 8) :
    parseIPv6 (joinGroups (x :: pre) ++ 58 :: 58 :: joinGroups post) =
      some (groupBytes (x :: pre) ++
        List.replicate (16 - 2 * (pre.length + 1 + post.length)) 0 ++ groupBytes post) := by
  obtain ⟨d, t, hdt, hd, _, _⟩ := joinGroups_cons x pre
  have h37 : ¬ 37 ∈ joinGroups (x :: pre) ++ 58 :: 58 :: joinGroups post := by
    apply no_percent
    intro c hc
    simp only [List.mem_append, List.mem_cons] at hc
    rcases hc with hc | hc | hc | hc
    · exact joinGroups_chars _ c hc
    · rw [hc]; decide
    · rw [hc]; decide
    · exact joinGroups_chars post c hc
  have hloop := parseIPv6Loop_join_run pre x post hpre hpost 9 [] (by omega) (by simp; omega)
  have hl1 : (groupBytes (x :: pre)).length = 2 * (pre.length + 1) := by
    rw [groupBytes_length]
    simp
  have hl2 : (groupBytes post).length = 2 * post.length := groupBytes_length post
  have hlead : (List.take 2 (d :: t ++ 58 :: 58 :: joinGroups post) == [58, 58]) = false := by
    rw [beq_eq_false_iff_ne]
    intro h
    have h0 := congrArg List.head? h
    simp only [List.cons_append, List.take_succ_cons, List.head?_cons, Option.some.injEq] at h0
    exact hd h0
  simp only [List.nil_append, List.length_nil, Nat.zero_add] at hloop
  rw [hdt] at h37 hloop
  simp only [parseIPv6, hdt, h37, if_false, hlead, Bool.false_eq_true, false_and, hloop]
  have hlt : (groupBytes (x :: pre) ++ groupBytes post).length < 16 := by
    rw [List.length_append, hl1, hl2]
    omega
  have htake : List.take (2 * (pre.length + 1)) (groupBytes (x :: pre) ++ groupBytes post) =
      groupBytes (x :: pre) := by
    rw [← hl1]
    exact List.take_left _ _
  have hdrop : List.drop (2 * (pre.length + 1)) (groupBytes (x :: pre) ++ groupBytes post) =
      groupBytes post := by
    rw [← hl1]
    exact List.drop_left _ _
  have hn : 16 - (groupBytes (x :: pre) ++ groupBytes post).length =
      16 - 2 * (pre.length + 1 + post.length) := by
    rw [List.length_append, hl1, hl2]
    omega
  simp only [ne_eq, not_true_eq_false, if_false, hlt, if_true, htake, hdrop, hn]

/-- A list of 16 elements, written out. -/
theorem list_of_length_16 (ip : List Nat) (hlen : ip.length = 16) :
    ∃ b0 b1 b2 b3 b4 b5 b6 b7 b8 b9 b10 b11 b12 b13 b14 b15, ip = [b0, b1, b2, b3, b4, b5, b6, b7, b8, b9, b10, b11, b12, b13, b14, b15] := by
  have step : ∀ (n : Nat) (l : List Nat), l.length = n + 1 → ∃ b t, l = b :: t ∧ t.length = n := by
    intro n l h
    cases l with
    | nil => simp at h
    | cons b t => exact ⟨b, t, rfl, by simpa using h⟩
  obtain ⟨b0, t0, rfl, h0⟩ := step 15 ip hlen
  obtain ⟨b1, t1, rfl, h1⟩ := step 14 t0 h0
  obtain ⟨b2, t2, rfl, h2⟩ := step 13 t1 h1
  obtain ⟨b3, t3, rfl, h3⟩ := step 12 t2 h2
  obtain ⟨b4, t4, rfl, h4⟩ := step 11 t3 h3
  obtain ⟨b5, t5, rfl, h5⟩ := step 10 t4 h4
  obtain ⟨b6, t6, rfl, h6⟩ := step 9 t5 h5
  obtain ⟨b7, t7, rfl, h7⟩ := step 8 t6 h6
  obtain ⟨b8, t8, rfl, h8⟩ := step 7 t7 h7
  obtain ⟨b9, t9, rfl, h9⟩ := step 6 t8 h8
  obtain ⟨b10, t10, rfl, h10⟩ := step 5 t9 h9
  obtain ⟨b11, t11, rfl, h11⟩ := step 4 t10 h10
  obtain ⟨b12, t12, rfl, h12⟩ := step 3 t11 h11
  obtain ⟨b13, t13, rfl, h13⟩ := step 2 t12 h12
  obtain ⟨b14, t14, rfl, h14⟩ := step 1 t13 h13
  obtain ⟨b15, t15, rfl, h15⟩ := step 0 t14 h14
  have hnil : t15 = [] := List.length_eq_zero.mp h15
  subst hnil
  exact ⟨b0, b1, b2, b3, b4, b5, b6, b7, b8, b9, b10, b11, b12, b13, b14, b15, rfl⟩

/-- `parseIPv6` reads the text `string6` writes for 16 bytes back. -/
theorem parseIPv6_string6 (ip : IP) (hlen : ip.length = 16) (hb : ∀ b ∈ ip, b < 256) :
    parseIPv6 (string6 ip) = some ip := by
  obtain ⟨b0, b1, b2, b3, b4, b5, b6, b7, b8, b9, b10, b11, b12, b13, b14, b15, rfl⟩ := list_of_length_16 ip hlen
  have hb0 : b0 < 256 := hb b0 (by simp)
  have hb1 : b1 < 256 := hb b1 (by simp)
  have hb2 : b2 < 256 := hb b2 (by simp)
  have hb3 : b3 < 256 := hb b3 (by simp)
  have hb4 : b4 < 256 := hb b4 (by simp)
  have hb5 : b5 < 256 := hb b5 (by simp)
  have hb6 : b6 < 256 := hb b6 (by simp)
  have hb7 : b7 < 256 := hb b7 (by simp)
  have hb8 : b8 < 256 := hb b8 (by simp)
  have hb9 : b9 < 256 := hb b9 (by simp)
  have hb10 : b10 < 256 := hb b10 (by simp)
  have hb11 : b11 < 256 := hb b11 (by simp)
  have hb12 : b12 < 256 := hb b12 (by simp)
  have hb13 : b13 < 256 := hb b13 (by simp)
  have hb14 : b14 < 256 := hb b14 (by simp)
  have hb15 : b15 < 256 := hb b15 (by simp)
  have hg : v6groups [b0, b1, b2, b3, b4, b5, b6, b7, b8, b9, b10, b11, b12, b13, b14, b15] = [b0 * 256 + b1, b2 * 256 + b3, b4 * 256 + b5, b6 * 256 + b7, b8 * 256 + b9, b10 * 256 + b11, b12 * 256 + b13, b14 * 256 + b15] := rfl
  have hall : ∀ y ∈ [b0 * 256 + b1, b2 * 256 + b3, b4 * 256 + b5, b6 * 256 + b7, b8 * 256 + b9, b10 * 256 + b11, b12 * 256 + b13, b14 * 256 + b15], y < 65536 := by
    intro y hy
    simp only [List.mem_cons, List.mem_singleton, List.not_mem_nil, or_false] at hy
    rcases hy with h | h | h | h | h | h | h | h <;> omega
  have key : ∀ hi lo : Nat, lo < 256 → (hi * 256 + lo) / 256 = hi ∧ (hi * 256 + lo) % 256 = lo := by
    intro hi lo h
    omega
  have hbytes : groupBytes [b0 * 256 + b1, b2 * 256 + b3, b4 * 256 + b5, b6 * 256 + b7, b8 * 256 + b9, b10 * 256 + b11, b12 * 256 + b13, b14 * 256 + b15] = [b0, b1, b2, b3, b4, b5, b6, b7, b8, b9, b10, b11, b12, b13, b14, b15] := by
    simp only [groupBytes, List.flatMap_cons, List.flatMap_nil, List.cons_append, List.nil_append,
      List.append_nil, (key b0 b1 hb1).1, (key b0 b1 hb1).2, (key b2 b3 hb3).1, (key b2 b3 hb3).2, (key b4 b5 hb5).1, (key b4 b5 hb5).2, (key b6 b7 hb7).1, (key b6 b7 hb7).2, (key b8 b9 hb9).1, (key b8 b9 hb9).2, (key b10 b11 hb11).1, (key b10 b11 hb11).2, (key b12 b13 hb13).1, (key b12 b13 hb13).2, (key b14 b15 hb15).1, (key b14 b15 hb15).2]
  have hv := zeroRunLoop_valid [b0 * 256 + b1, b2 * 256 + b3, b4 * 256 + b5, b6 * 256 + b7, b8 * 256 + b9, b10 * 256 + b11, b12 * 256 + b13, b14 * 256 + b15] 8 0 (255, 255) (Or.inl rfl)
  simp only [string6, hg]
  generalize zeroRunLoop [b0 * 256 + b1, b2 * 256 + b3, b4 * 256 + b5, b6 * 256 + b7, b8 * 256 + b9, b10 * 256 + b11, b12 * 256 + b13, b14 * 256 + b15] 8 0 (255, 255) = z at hv ⊢
  obtain ⟨zs, ze⟩ := z
  simp only at hv ⊢
  rcases hv with hnone | ⟨h1, h2, h3⟩
  · simp only [Prod.mk.injEq] at hnone
    obtain ⟨rfl, rfl⟩ := hnone
    rw [appendGroups_join _ _ _ _ _ _ _ _ _ _ (Or.inl ⟨rfl, rfl⟩), if_pos rfl,
      parseIPv6_plain _ _ hall (by simp), hbytes]
  · have hzs : ¬ zs = 255 := by omega
    have hsplit := split_zero_run [b0 * 256 + b1, b2 * 256 + b3, b4 * 256 + b5, b6 * 256 + b7, b8 * 256 + b9, b10 * 256 + b11, b12 * 256 + b13, b14 * 256 + b15] zs ze (le_of_lt h1) (by simpa using h2) h3
    have hpost : ∀ y ∈ List.drop ze [b0 * 256 + b1, b2 * 256 + b3, b4 * 256 + b5, b6 * 256 + b7, b8 * 256 + b9, b10 * 256 + b11, b12 * 256 + b13, b14 * 256 + b15], y < 65536 :=
      fun y hy => hall y (List.mem_of_mem_drop hy)
    have hdl : (List.drop ze [b0 * 256 + b1, b2 * 256 + b3, b4 * 256 + b5, b6 * 256 + b7, b8 * 256 + b9, b10 * 256 + b11, b12 * 256 + b13, b14 * 256 + b15]).length = 8 - ze := by simp
    rw [appendGroups_join _ _ _ _ _ _ _ _ _ _ (Or.inr ⟨h1, h2⟩), if_neg hzs]
    rw [← hbytes]
    conv_rhs => rw [hsplit]
    rw [groupBytes_append, groupBytes_append, groupBytes_replicate]
    cases zs with
    | zero =>
      simp only [List.take_zero, joinGroups, List.nil_append]
      rw [parseIPv6_lead _ hpost (by rw [hdl]; omega), hdl]
      have hn : 16 - 2 * (8 - ze) = 2 * (ze - 0) := by omega
      rw [hn]
      simp [groupBytes]
    | succ n =>
      have hpre : ∀ y ∈ (b0 * 256 + b1) :: List.take n
          [b2 * 256 + b3, b4 * 256 + b5, b6 * 256 + b7, b8 * 256 + b9, b10 * 256 + b11, b12 * 256 + b13, b14 * 256 + b15], y < 65536 := by
        intro y hy
        apply hall
        rcases List.mem_cons.mp hy with h | h
        · rw [h]
          exact List.mem_cons_self _ _
        · exact List.mem_cons_of_mem _ (List.mem_of_mem_take h)
      have htl : (List.take n [b2 * 256 + b3, b4 * 256 + b5, b6 * 256 + b7, b8 * 256 + b9, b10 * 256 + b11, b12 * 256 + b13, b14 * 256 + b15]).length = n := by
        simp only [List.length_take, List.length_cons, List.length_nil]
        omega
      simp only [List.take_succ_cons]
      rw [parseIPv6_run _ _ _ hpre hpost (by rw [htl, hdl]; omega), htl, hdl]
      have hn : 16 - 2 * (n + 1 + (8 - ze)) = 2 * (ze - (n + 1)) := by omega
      rw [hn]

/-- The text `string6` writes is made of colons and hexadecimal digits, and
has a colon. -/
theorem string6_chars (ip : IP) (hlen : ip.length = 16) :
    (∀ c ∈ string6 ip, isV6Char c = true) ∧ 58 ∈ string6 ip := by
  obtain ⟨b0, b1, b2, b3, b4, b5, b6, b7, b8, b9, b10, b11, b12, b13, b14, b15, rfl⟩ := list_of_length_16 ip hlen
  have hg : v6groups [b0, b1, b2, b3, b4, b5, b6, b7, b8, b9, b10, b11, b12, b13, b14, b15] = [b0 * 256 + b1, b2 * 256 + b3, b4 * 256 + b5, b6 * 256 + b7, b8 * 256 + b9, b10 * 256 + b11, b12 * 256 + b13, b14 * 256 + b15] := rfl
  have hv := zeroRunLoop_valid [b0 * 256 + b1, b2 * 256 + b3, b4 * 256 + b5, b6 * 256 + b7, b8 * 256 + b9, b10 * 256 + b11, b12 * 256 + b13, b14 * 256 + b15] 8 0 (255, 255) (Or.inl rfl)
  have h58 : isV6Char 58 = true := by decide
  simp only [string6, hg]
  generalize zeroRunLoop [b0 * 256 + b1, b2 * 256 + b3, b4 * 256 + b5, b6 * 256 + b7, b8 * 256 + b9, b10 * 256 + b11, b12 * 256 + b13, b14 * 256 + b15] 8 0 (255, 255) = z at hv ⊢
  obtain ⟨zs, ze⟩ := z
  simp only at hv ⊢
  rcases hv with hnone | ⟨h1, h2, h3⟩
  · simp only [Prod.mk.injEq] at hnone
    obtain ⟨rfl, rfl⟩ := hnone
    rw [appendGroups_join _ _ _ _ _ _ _ _ _ _ (Or.inl ⟨rfl, rfl⟩), if_pos rfl]
    exact ⟨joinGroups_chars _, by simp [joinGroups]⟩
  · have hzs : ¬ zs = 255 := by omega
    rw [appendGroups_join _ _ _ _ _ _ _ _ _ _ (Or.inr ⟨h1, h2⟩), if_neg hzs]
    constructor
    · intro c hc
      simp only [List.mem_append, List.mem_cons] at hc
      rcases hc with hc | hc | hc | hc
      · exact joinGroups_chars _ c hc
      · rw [hc]; exact h58
      · rw [hc]; exact h58
      · exact joinGroups_chars _ c hc
    · simp

/-- The scan of `netip.ParseAddr` meets a colon first in a text of colons and
hexadecimal digits. -/
theorem parseAddr16_colon (s0 s : GoString) (hchars : ∀ c ∈ s, isV6Char c = true)
    (h58 : 58 ∈ s) : parseAddr16 s0 s = parseIPv6 s0 := by
  induction s with
  | nil => simp at h58
  | cons c rest ih =>
    have hc := hchars c (List.mem_cons_self _ _)
    have h46 : ¬ c = 46 := by
      rintro rfl
      revert hc
      decide
    by_cases hcol : c = 58
    · subst hcol
      simp only [parseAddr16, h46, if_false, if_true]
    · have h37 : ¬ c = 37 := by
        rintro rfl
        revert hc
        decide
      have hin : 58 ∈ rest := by
        rcases List.mem_cons.mp h58 with h | h
        · exact absurd h.symm hcol
        · exact h
      simp only [parseAddr16, h46, hcol, h37, if_false]
      exact ih (fun c hc => hchars c (List.mem_cons_of_mem _ hc)) hin

/-- `net.ParseIP` reads the text `string6` writes for 16 bytes back. -/
theorem ParseIP_string6 (ip : IP) (hlen : ip.length = 16) (hb : ∀ b ∈ ip, b < 256) :
    ParseIP (string6 ip) = ip := by
  obtain ⟨h1, h2⟩ := string6_chars ip hlen
  simp only [ParseIP, parseAddr16_colon _ _ h1 h2, parseIPv6_string6 ip hlen hb, Option.getD_some]

/-- `net.ParseIP` reads the text of an address back, up to the 16-byte form
of an IPv4 address: the text and the family stay the same. -/
theorem IPString_ParseIP (ip : IP) (h : validIP ip) :
    IPString (ParseIP (IPString ip)) = IPString ip ∧
      (To4 (ParseIP (IPString ip)) = none ↔ To4 ip = none) := by
  obtain ⟨hlen, hb⟩ := h
  rcases hlen with h4 | h16
  · -- the 4-byte form
    obtain ⟨a, b, c, d, rfl⟩ : ∃ a b c d, ip = [a, b, c, d] := by
      match ip, h4 with
      | [a, b, c, d], _ => exact ⟨a, b, c, d, rfl⟩
    have ha : a < 256 := hb a (by simp)
    have hb2 : b < 256 := hb b (by simp)
    have hc : c < 256 := hb c (by simp)
    have hd : d < 256 := hb d (by simp)
    have ht : To4 [a, b, c, d] = some [a, b, c, d] := by simp [To4]
    have hs : IPString [a, b, c, d] = string4 [a, b, c, d] := by simp [IPString, ht]
    rw [hs, ParseIP_string4 a b c d ha hb2 hc hd]
    obtain ⟨t4, s4⟩ := IPString_v4 a b c d
    exact ⟨s4, by simp [t4, ht]⟩
  · cases ht : To4 ip with
    | none =>
      have hs : IPString ip = string6 ip := by
        simp only [IPString, ht, h16]
        simp
      rw [hs, ParseIP_string6 ip h16 hb, ← hs]
      exact ⟨rfl, by simp [ht]⟩
    | some p4 =>
      obtain ⟨b0, b1, b2, b3, b4, b5, b6, b7, b8, b9, b10, b11, b12, b13, b14, b15, rfl⟩ := list_of_length_16 ip h16
      have hp : p4 = [b12, b13, b14, b15] := by
        simp only [To4, List.length_cons, List.length_nil] at ht
        split_ifs at ht with hc1 hc2
        · omega
        · simp only [Option.some.injEq] at ht
          rw [← ht]
          rfl
      subst hp
      have hs : IPString [b0, b1, b2, b3, b4, b5, b6, b7, b8, b9, b10, b11, b12, b13, b14, b15] = string4 [b12, b13, b14, b15] := by
        simp only [IPString, ht, List.length_cons, List.length_nil]
        simp
      rw [hs, ParseIP_string4 b12 b13 b14 b15 (hb b12 (by simp)) (hb b13 (by simp))
        (hb b14 (by simp)) (hb b15 (by simp))]
      obtain ⟨t4, s4⟩ := IPString_v4 b12 b13 b14 b15
      exact ⟨s4, by simp [t4]⟩

/-- C2 (as stated it fails): three headers that `parseProxyHeader` accepts and
whose fields come back changed.  The source `localhost` comes back as `<nil>`
(with the family `TCP6`); the numeric source port `99999999999999999999` comes
back as `9223372036854775807`; the addresses `0:0:0:0:0:0:0:1` and
`0:0:0:0:0:0:0:2` of a `TCP6` line come back as `::1` and `::2`. -/
theorem roundTrip_changes_fields :
    roundTrip (str "PROXY TCP4 localhost 10.0.0.2 1234 80\r\n") =
      some (str "PROXY TCP6 <nil> 10.0.0.2 1234 80\r\n") ∧
    roundTrip (str "PROXY TCP4 10.0.0.1 10.0.0.2 99999999999999999999 80\r\n") =
      some (str "PROXY TCP4 10.0.0.1 10.0.0.2 9223372036854775807 80\r\n") ∧
    roundTrip (str "PROXY TCP6 0:0:0:0:0:0:0:1 0:0:0:0:0:0:0:2 1234 80\r\n") =
      some (str "PROXY TCP6 ::1 ::2 1234 80\r\n") := by
  refine ⟨?_, ?_, ?_⟩ <;> (set_option maxRecDepth 100000 in decide)

/-- C2 (amended): take a header that `parseProxyHeader` accepts (trimmed, it
splits at single blanks into at least 6 fields, the first `PROXY`), whose
third and fourth fields are the texts Go prints for two addresses `src` and
`dst` (dotted decimal for IPv4, the compressed lower-case form for IPv6), and
whose fifth and sixth fields each are either the decimal text of an integer
in the range of `int` or a field of at most 19 bytes that is no decimal
numeral.  Decoding it and encoding the result again gives the header with the
same two address fields, with each port field that is a number unchanged and
`0` for each port field that is no numeral; its family is `TCP6` exactly when
`src` has no 4-byte form. -/
theorem roundTrip_canonical (header : GoString) (src dst : IP)
    (hlen : 6 ≤ (Split (TrimSpace header) 32).length)
    (hfirst : (Split (TrimSpace header) 32).head? = some (str "PROXY"))
    (hs : validIP src) (hd : validIP dst)
    (hsrc : (Split (TrimSpace header) 32).getD 2 [] = IPString src)
    (hdst : (Split (TrimSpace header) 32).getD 3 [] = IPString dst)
    (hsp : PortField ((Split (TrimSpace header) 32).getD 4 []))
    (hdp : PortField ((Split (TrimSpace header) 32).getD 5 [])) :
    roundTrip header =
      some (str "PROXY " ++ (if To4 src = none then str "TCP6" else str "TCP4") ++ str " " ++
        (Split (TrimSpace header) 32).getD 2 [] ++ str " " ++
        (Split (TrimSpace header) 32).getD 3 [] ++ str " " ++
        reencodedPort ((Split (TrimSpace header) 32).getD 4 []) ++ str " " ++
        reencodedPort ((Split (TrimSpace header) 32).getD 5 []) ++ str "\r\n") := by
  have hcond : ¬ ((Split (TrimSpace header) 32).length < 6 ∨
      (Split (TrimSpace header) 32).head? ≠ some (str "PROXY")) := by
    rintro (h | h)
    · omega
    · exact h hfirst
  obtain ⟨s1, s2⟩ := IPString_ParseIP src hs
  obtain ⟨d1, _⟩ := IPString_ParseIP dst hd
  have hfam : (if To4 (ParseIP (IPString src)) = none then str "TCP6" else str "TCP4") =
      (if To4 src = none then str "TCP6" else str "TCP4") := by
    by_cases h4 : To4 src = none
    · rw [if_pos h4, if_pos (s2.mpr h4)]
    · rw [if_neg h4, if_neg (fun h => h4 (s2.mp h))]
  simp only [roundTrip, parseProxyHeader, hcond, if_false, rebuildProxyHeader,
    buildProxyHeader_eq, hsrc, hdst, hfam, s1, d1,
    formatInt_Atoi_port _ hsp, formatInt_Atoi_port _ hdp]

/-- C2, at a concrete header: `PROXY TCP6 2001:db8::1 10.0.0.2 -1 http` with
its line end
comes back with the port `0` in the place of `http`. -/
theorem roundTrip_canonical_witness :
    roundTrip (str "PROXY TCP6 2001:db8::1 10.0.0.2 -1 http\r\n") =
      some (str "PROXY TCP6 2001:db8::1 10.0.0.2 -1 0\r\n") :=
  Eq.trans
    (roundTrip_canonical (str "PROXY TCP6 2001:db8::1 10.0.0.2 -1 http\r\n")
      [0x20, 0x01, 0x0d, 0xb8, 0, 0, 0, 0, 0, 0, 0, 0, 0, 0, 0, 1] [10, 0, 0, 2]
      (by decide) (by decide) (by decide) (by decide) (by decide) (by decide)
      (Or.inl ⟨-1, by norm_num, by norm_num, by decide⟩) (Or.inr ⟨by decide, by decide⟩))
    (by decide)

end GoPfw
